import Mathlib

/-!
Verification development for the bauble scanner and expression parser
(`src/bauble/tokens.py`, `src/bauble/bauble_lexer.py`, `src/bauble/bauble_parser.py`,
`src/bauble/bauble_ast.py`).

The Python code is shallowly embedded: the scanner's index into the immutable
source string is represented by the list of characters not yet consumed
(`LexState.rest`), together with the `line` and `column` counters; the
character-level while-loops of the scanner are written as structurally
recursive functions over that list, with `advance`'s state update (newline
bumps `line` and resets `column` to 1; the source never increments `column`
for any other character) inlined at each consumption site.  Python runtime
exceptions (KeyError, TypeError, AttributeError) are modelled as `PyErr`
values; diagnostics printed by `Parser.emit_error` are modelled as an
accumulated list of (message, offending token) pairs.
-/

namespace Bauble

/-- The `TokenKind` enumeration of `tokens.py`. -/
inductive TokenKind where
  | OPEN_PAREN | CLOSE_PAREN | OPEN_BRACKET | CLOSE_BRACKET | OPEN_BRACE | CLOSE_BRACE
  | COMMA | DOT | SEMICOLON
  | EQUAL | EQUAL_EQUAL | BANG | BANG_EQUAL | GREATER | GREATER_EQUAL | LESS | LESS_EQUAL
  | PLUS | MINUS | STAR | SLASH
  | INTEGER | STRING | FLOAT
  | IDENT
  | AND | CLASS | ELSE | FALSE | FOR | FN | IF | IMPORT | LET | NONE | OR | RETURN | TRUE
  | WHILE
  | ERROR | EOF
  deriving DecidableEq, Repr

/-- The string value attached to each member of the `TokenKind` enum in
`tokens.py` (note the source's misspelling "FLOT" for FLOAT). -/
def TokenKind.canonical : TokenKind → String
  | .OPEN_PAREN => "("
  | .CLOSE_PAREN => ")"
  | .OPEN_BRACKET => "["
  | .CLOSE_BRACKET => "]"
  | .OPEN_BRACE => "\x7b"
  | .CLOSE_BRACE => "\x7d"
  | .COMMA => ","
  | .DOT => "."
  | .SEMICOLON => ";"
  | .EQUAL => "="
  | .EQUAL_EQUAL => "=="
  | .BANG => "!"
  | .BANG_EQUAL => "!="
  | .GREATER => ">"
  | .GREATER_EQUAL => ">="
  | .LESS => "<"
  | .LESS_EQUAL => "<="
  | .PLUS => "+"
  | .MINUS => "-"
  | .STAR => "*"
  | .SLASH => "/"
  | .INTEGER => "INTEGER"
  | .STRING => "STRING"
  | .FLOAT => "FLOT"
  | .IDENT => "IDENTIFIER"
  | .AND => "and"
  | .CLASS => "class"
  | .ELSE => "else"
  | .FALSE => "false"
  | .FOR => "for"
  | .FN => "fn"
  | .IF => "if"
  | .IMPORT => "import"
  | .LET => "let"
  | .NONE => "none"
  | .OR => "or"
  | .RETURN => "return"
  | .TRUE => "true"
  | .WHILE => "while"
  | .ERROR => "error"
  | .EOF => "End of File"

/-- The `Position` namedtuple of `tokens.py`. -/
structure Position where
  line : Nat
  column : Nat
  deriving DecidableEq, Repr

/-- A lexical token, as in `tokens.py` (`Token` class). -/
structure Token where
  kind : TokenKind
  position : Position
  value : String
  deriving DecidableEq, Repr

/-- The value computation of `Token.__init__`: `value or kind.value`.  Python
truthiness makes both `None` and the empty string fall back to the kind's
canonical spelling. -/
def tokenValueOrCanonical (kind : TokenKind) (value : Option String) : String :=
  match value with
  | some v => if v = "" then kind.canonical else v
  | none => kind.canonical

/-- Construct a `Token` as `Token.__init__` does. -/
def mkToken (kind : TokenKind) (position : Position) (value : Option String) : Token :=
  ⟨kind, position, tokenValueOrCanonical kind value⟩

/-- Character-level state of the scanner: `rest` is the suffix of the source
string not yet consumed (the Python code keeps the whole source plus an
integer `position`; `rest` is `source[position:]`), plus the `line` and
`column` counters. -/
structure LexState where
  rest : List Char
  line : Nat
  column : Nat
  deriving DecidableEq, Repr

/-- `Lexer.advance`: returns the next character (or none at the end of the
source) and the updated state.  Faithful to the source: a newline increments
`line` and resets `column` to 1, and no other update of `column` is ever
performed. -/
def LexState.advance : LexState → Option Char × LexState
  | ⟨[], l, c⟩ => (none, ⟨[], l, c⟩)
  | ⟨ch :: cs, l, c⟩ =>
      (some ch, ⟨cs, if ch = '\n' then l + 1 else l, if ch = '\n' then 1 else c⟩)

/-- `Lexer.peek`: the next character without consuming it. -/
def LexState.peekChar : LexState → Option Char
  | ⟨cs, _, _⟩ => cs.head?

/-- The `is_whitespace` helper of `bauble_lexer.py`. -/
def isWhitespace (c : Char) : Bool :=
  c = ' ' || c = '\t' || c = '\n' || c = '\r'

/-- Single-character `str.isidentifier` test used by the scanner for both the
first and the following identifier characters (a lone ASCII digit is not a
valid Python identifier, so digits do not continue an identifier here). -/
def isIdentChar (c : Char) : Bool :=
  c.isAlpha || c = '_'

/-- The global `KEYWORDS` dictionary of `bauble_lexer.py`, as an ordered
association list. -/
def KEYWORDS : List (String × TokenKind) :=
  [("and", .AND), ("class", .CLASS), ("else", .ELSE), ("false", .FALSE), ("for", .FOR),
   ("fn", .FN), ("if", .IF), ("import", .IMPORT), ("let", .LET), ("none", .NONE),
   ("or", .OR), ("return", .RETURN), ("true", .TRUE), ("while", .WHILE)]

/-- Keyword lookup `KEYWORDS.get(value, TokenKind.IDENT)` of `bauble_lexer.py`. -/
def keywordKind (v : String) : TokenKind :=
  ((KEYWORDS.find? (fun p => p.1 = v)).map Prod.snd).getD .IDENT

/-- `Lexer.create_token`: builds a token at the scanner's current position. -/
def createToken (s : LexState) (kind : TokenKind) (value : Option String) : Token :=
  mkToken kind ⟨s.line, s.column⟩ value

/-- The whitespace-skipping while-loop at the top of `Lexer.lex_token`:
`next_char` is the character just consumed; while it is whitespace, another
`advance()` is performed.  Returns the first non-whitespace character (or
none if the source ran out, exactly as the Python loop leaves `next_char =
None`) together with the state after it was consumed.  `advance`'s
line/column update is inlined per consumed character. -/
def skipWsLoop : List Char → Nat → Nat → Option Char × LexState
  | [], l, col => (none, ⟨[], l, col⟩)
  | c' :: cs, l, col =>
      if isWhitespace c' then
        skipWsLoop cs (if c' = '\n' then l + 1 else l) (if c' = '\n' then 1 else col)
      else (some c', ⟨cs, if c' = '\n' then l + 1 else l, if c' = '\n' then 1 else col⟩)

/-- Entry point of the loop: `c` is the character already in `next_char`; if
it is not whitespace the loop body never runs. -/
def skipWsGo (rest : List Char) (c : Char) (l col : Nat) : Option Char × LexState :=
  if isWhitespace c then skipWsLoop rest l col else (some c, ⟨rest, l, col⟩)

/-- The comment-consuming while-loop of `Lexer.lex_token`: advance while the
peeked character is not a newline and the end has not been reached. -/
def skipCommentGo : List Char → Nat → Nat → LexState
  | [], l, col => ⟨[], l, col⟩
  | c :: cs, l, col =>
      if c = '\n' then ⟨c :: cs, l, col⟩ else skipCommentGo cs l col

/-- The accumulation loop of `Lexer.lex_string` (the opening quote has
already been consumed by `lex_token`).  The closing-quote consumption and the
unterminated-string ERROR token of the source are produced here; the ERROR
message is the exact source text. -/
def lexStringGo : List Char → Nat → Nat → String → Token × LexState
  | [], l, col, _ =>
      (mkToken .ERROR ⟨l, col⟩
        (some "Unterminated string literal, expected to find closing quote, instead found EOF (End of File)"),
       ⟨[], l, col⟩)
  | c :: cs, l, col, value =>
      if c = '\"' then
        (mkToken .STRING ⟨l, col⟩ (some value), ⟨cs, l, col⟩)
      else
        lexStringGo cs (if c = '\n' then l + 1 else l) (if c = '\n' then 1 else col)
          (value.push c)

/-- `Lexer.lex_string`. -/
def lexString (s : LexState) : Token × LexState :=
  lexStringGo s.rest s.line s.column ""

/-- The digit-accumulation loop of `Lexer.lex_number` (`str.isnumeric` on a
single character is modelled as `Char.isDigit`; consumed digits are never
newlines, so line and column are unchanged). -/
def lexNumGo : List Char → Nat → Nat → String → String × LexState
  | [], l, col, v => (v, ⟨[], l, col⟩)
  | c :: cs, l, col, v =>
      if c.isDigit then lexNumGo cs l col (v.push c) else (v, ⟨c :: cs, l, col⟩)

/-- `Lexer.lex_number`: the first digit has already been consumed by
`lex_token`; a following dot switches classification to FLOAT. -/
def lexNumber (s : LexState) (firstChar : Char) : Token × LexState :=
  let p := lexNumGo s.rest s.line s.column (String.singleton firstChar)
  if p.2.peekChar = some '.' then
    let q := lexNumGo p.2.rest.tail p.2.line p.2.column (p.1.push '.')
    (mkToken .FLOAT ⟨q.2.line, q.2.column⟩ (some q.1), q.2)
  else
    (mkToken .INTEGER ⟨p.2.line, p.2.column⟩ (some p.1), p.2)

/-- The accumulation loop of `Lexer.lex_identifier`. -/
def lexIdentGo : List Char → Nat → Nat → String → String × LexState
  | [], l, col, v => (v, ⟨[], l, col⟩)
  | c :: cs, l, col, v =>
      if isIdentChar c then lexIdentGo cs l col (v.push c) else (v, ⟨c :: cs, l, col⟩)

/-- `Lexer.lex_identifier`: keyword lookup decides the final token kind. -/
def lexIdentifier (s : LexState) (firstChar : Char) : Token × LexState :=
  let p := lexIdentGo s.rest s.line s.column (String.singleton firstChar)
  (mkToken (keywordKind p.1) ⟨p.2.line, p.2.column⟩ (some p.1), p.2)

/-- The `consume(expected)` probe for two-character operators: advance iff
the peeked character equals the expected one, then build the two- or
one-character token (the probed character is `=`, never a newline). -/
def twoCharOp (s : LexState) (expected : Char) (two one : TokenKind) : Token × LexState :=
  match s.rest with
  | c :: cs =>
      if c = expected then
        (mkToken two ⟨s.line, s.column⟩ none, ⟨cs, s.line, s.column⟩)
      else (mkToken one ⟨s.line, s.column⟩ none, s)
  | [] => (mkToken one ⟨s.line, s.column⟩ none, s)

/-- The if/elif dispatch chain of `Lexer.lex_token` on the consumed character
`c` (state `s` is positioned just after `c`, and after any comment skip). -/
def lexDispatch (c : Char) (s : LexState) : Token × LexState :=
  if c = '(' then (createToken s .OPEN_PAREN none, s)
  else if c = ')' then (createToken s .CLOSE_PAREN none, s)
  else if c = '[' then (createToken s .OPEN_BRACKET none, s)
  else if c = ']' then (createToken s .CLOSE_BRACKET none, s)
  else if c = '\x7b' then (createToken s .OPEN_BRACE none, s)
  else if c = '\x7d' then (createToken s .CLOSE_BRACE none, s)
  else if c = ',' then (createToken s .COMMA none, s)
  else if c = '.' then (createToken s .DOT none, s)
  else if c = ';' then (createToken s .SEMICOLON none, s)
  else if c = '=' then twoCharOp s '=' .EQUAL_EQUAL .EQUAL
  else if c = '!' then twoCharOp s '=' .BANG_EQUAL .BANG
  else if c = '>' then twoCharOp s '=' .GREATER_EQUAL .GREATER
  else if c = '<' then twoCharOp s '=' .LESS_EQUAL .LESS
  else if c = '+' then (createToken s .PLUS none, s)
  else if c = '-' then (createToken s .MINUS none, s)
  else if c = '*' then (createToken s .STAR none, s)
  else if c = '/' then (createToken s .SLASH none, s)
  else if c = '\"' then lexString s
  else if c.isDigit then lexNumber s c
  else if isIdentChar c then lexIdentifier s c
  else
    (createToken s .ERROR (some ("Unknown character " ++ String.singleton c ++ " found")), s)

/-- `Lexer.lex_token`.  Returns `none` exactly when the Python code raises:
after the whitespace-skipping loop exhausts the source, `next_char` is
`None`, every comparison of the dispatch chain is false, and
`next_char.isnumeric()` raises AttributeError. -/
def lexToken (s : LexState) : Option (Token × LexState) :=
  match LexState.advance s with
  | (none, s1) => some (createToken s1 .EOF none, s1)
  | (some c0, s1) =>
      match skipWsGo s1.rest c0 s1.line s1.column with
      | (none, _) => none
      | (some c, s2) =>
          let s3 :=
            if c = '/' ∧ s2.peekChar = some '/' then
              skipCommentGo s2.rest s2.line s2.column
            else s2
          some (lexDispatch c s3)

/-- The `Lexer` object: the buffered lookahead token plus the character-level
state (`Lexer.__init__` computes the first lookahead eagerly). -/
structure Lexer where
  next : Token
  st : LexState
  deriving DecidableEq, Repr

/-- `Lexer.__init__`: position 0, line 1, column 1, then one `lex_token`. -/
def Lexer.init (source : String) : Option Lexer :=
  (lexToken ⟨source.toList, 1, 1⟩).map fun p => ⟨p.1, p.2⟩

/-- `Lexer.next_token`: return the buffered token and refill the buffer. -/
def Lexer.nextToken (L : Lexer) : Option (Token × Lexer) :=
  (lexToken L.st).map fun p => (L.next, ⟨p.1, p.2⟩)

/-- The token returned by the n-th `next_token()` call (0-based), if no call
up to there raised. -/
def streamNth : Nat → Lexer → Option Token
  | 0, L => (L.nextToken).map Prod.fst
  | n + 1, L =>
      match L.nextToken with
      | none => none
      | some (_, L') => streamNth n L'

/-- The n-th token of the stream for a given source string. -/
def sourceNth (source : String) (n : Nat) : Option Token :=
  match Lexer.init source with
  | none => none
  | some L => streamNth n L

/-- Collect the whole token stream up to and including the first EOF token
(fuelled; `none` on fuel exhaustion or a scanner exception). -/
def collectTokens : Nat → Lexer → Option (List Token)
  | 0, _ => none
  | n + 1, L =>
      match L.nextToken with
      | none => none
      | some (t, L') =>
          if t.kind = .EOF then some [t]
          else (collectTokens n L').map fun ts => t :: ts

/-- The token stream of a source string, including the final EOF token. -/
def sourceTokens (source : String) (fuel : Nat) : Option (List Token) :=
  match Lexer.init source with
  | none => none
  | some L => collectTokens fuel L

/-- A binding-power pair of the parser's `Precedence` dataclass: the two
fields are the optional prefix binding power and the optional infix binding
power of a token kind. -/
structure Precedence where
  prePow : Option Nat
  inPow : Option Nat
  deriving DecidableEq, Repr

/-- The `PRECEDENCE_MAP` dictionary of `bauble_parser.py`; `none` means the
kind is absent from the dictionary. -/
def PRECEDENCE_MAP : TokenKind → Option Precedence
  | .EQUAL => some ⟨none, some 1⟩
  | .OR => some ⟨none, some 2⟩
  | .AND => some ⟨none, some 3⟩
  | .EQUAL_EQUAL => some ⟨none, some 4⟩
  | .BANG_EQUAL => some ⟨none, some 4⟩
  | .GREATER => some ⟨none, some 5⟩
  | .GREATER_EQUAL => some ⟨none, some 5⟩
  | .LESS => some ⟨none, some 5⟩
  | .LESS_EQUAL => some ⟨none, some 5⟩
  | .PLUS => some ⟨none, some 6⟩
  | .MINUS => some ⟨some 8, some 6⟩
  | .STAR => some ⟨none, some 7⟩
  | .SLASH => some ⟨none, some 7⟩
  | .BANG => some ⟨some 8, none⟩
  | .OPEN_PAREN => some ⟨none, some 9⟩
  | .DOT => some ⟨none, some 9⟩
  | _ => none

/-- `get_precedence`: dictionary lookup with default `Precedence(None, 0)` —
note the default *infix* power is the integer 0, not `None`. -/
def getPrecedence (kind : TokenKind) : Precedence :=
  (PRECEDENCE_MAP kind).getD ⟨none, some 0⟩

/-- Names for the prefix-handler methods bound in the parser's `rules_map`. -/
inductive PreHandler where
  | literalH | identH | groupingH | unaryH
  deriving DecidableEq, Repr

/-- Names for the infix-handler methods bound in the parser's `rules_map`
(only `parse_binary` is ever used as an infix handler). -/
inductive InHandler where
  | binaryH
  deriving DecidableEq, Repr

/-- A `Rule` dataclass value: optional prefix handler, optional infix handler. -/
structure Rule where
  preRule : Option PreHandler
  inRule : Option InHandler
  deriving DecidableEq, Repr

/-- The `rules_map` dictionary built in `Parser.__init__`; `none` means the
kind is absent (so a Python subscript raises KeyError). -/
def rulesMap : TokenKind → Option Rule
  | .INTEGER => some ⟨some .literalH, none⟩
  | .FLOAT => some ⟨some .literalH, none⟩
  | .STRING => some ⟨some .literalH, none⟩
  | .FALSE => some ⟨some .literalH, none⟩
  | .TRUE => some ⟨some .literalH, none⟩
  | .NONE => some ⟨some .literalH, none⟩
  | .IDENT => some ⟨some .identH, none⟩
  | .OPEN_PAREN => some ⟨some .groupingH, none⟩
  | .PLUS => some ⟨none, some .binaryH⟩
  | .MINUS => some ⟨some .unaryH, some .binaryH⟩
  | .STAR => some ⟨none, some .binaryH⟩
  | .SLASH => some ⟨none, some .binaryH⟩
  | .BANG => some ⟨some .unaryH, some .binaryH⟩
  | _ => none

/-- The value stored in a `Literal` AST node (`bauble_types.LiteralKind`):
an int, a float (kept as its literal text — floating point is out of scope
and nothing here depends on its numeric value), or a string (which also
covers the `true`/`false`/`none` spellings kept verbatim by
`parse_literal`). -/
inductive LitVal where
  | intV (i : Int)
  | floatV (text : String)
  | strV (s : String)
  deriving DecidableEq, Repr

/-- The expression AST nodes of `bauble_ast.py` that the parser can build
(`parse_grouping` returns the inner node directly, so no Grouping wrapper is
ever constructed). -/
inductive Expr where
  | literal (value : LitVal) (position : Position)
  | binOp (op : String) (lhs rhs : Expr) (position : Position)
  | unaryOp (op : String) (rhs : Expr) (position : Position)
  | identExpr (name : String) (position : Position)
  | functionCall (name : String) (args : List Expr) (position : Position)
  | assignment (name : String) (value : Expr) (position : Position)
  deriving Repr

/-- The `position` attribute shared by all `Expr` nodes. -/
def Expr.position : Expr → Position
  | .literal _ p => p
  | .binOp _ _ _ p => p
  | .unaryOp _ _ p => p
  | .identExpr _ p => p
  | .functionCall _ _ p => p
  | .assignment _ _ p => p

/-- Little-endian decimal digits of a natural number (fuelled so that the
definition is structurally recursive and kernel-reducible). -/
def decDigits : Nat → Nat → List Nat
  | 0, _ => []
  | fuel + 1, n => if n = 0 then [] else n % 10 :: decDigits fuel (n / 10)

/-- The decimal digit characters of a natural number, as Python's `str`
renders a nonnegative int. -/
def natToDecChars (n : Nat) : List Char :=
  if n = 0 then ['0'] else (decDigits n n).reverse.map Nat.digitChar

/-- Python `str` of a nonnegative int. -/
def natToDec (n : Nat) : String := ⟨natToDecChars n⟩

/-- One step of Python `int()` over a decimal digit character. -/
def pyIntStep (acc : Nat) (c : Char) : Nat := acc * 10 + (c.toNat - 48)

/-- Python `int()` applied to the nonempty all-digit texts that the scanner
produces as INTEGER token values. -/
def pyIntNat (s : String) : Nat := s.toList.foldl pyIntStep 0

/-- `int(token.value)` as used by `parse_literal` (always nonnegative, since
the scanner's number texts carry no sign). -/
def pyInt (s : String) : Int := Int.ofNat (pyIntNat s)

/-- Python `str` of a `Literal` node's stored value. -/
def LitVal.render : LitVal → String
  | .intV i => if i < 0 then "-" ++ natToDec i.natAbs else natToDec i.natAbs
  | .floatV t => t
  | .strV s => s

mutual

/-- The `__str__` rendering of the expression AST classes in
`bauble_ast.py`. -/
def renderExpr : Expr → String
  | .literal v _ => v.render
  | .binOp op l r _ => "(" ++ renderExpr l ++ " " ++ op ++ " " ++ renderExpr r ++ ")"
  | .unaryOp op r _ => "(" ++ op ++ " " ++ renderExpr r ++ ")"
  | .identExpr n _ => n
  | .functionCall n args _ => n ++ "(" ++ String.intercalate ", " (renderArgs args) ++ ")"
  | .assignment n v _ => n ++ " = " ++ renderExpr v

/-- Renders each argument of a function call (the list comprehension in
`FunctionCall.__str__`). -/
def renderArgs : List Expr → List String
  | [] => []
  | e :: es => renderExpr e :: renderArgs es

end

/-- The position-free structure of an `Expr`: two trees are "structurally
equivalent" exactly when their shapes are equal. -/
inductive Shape where
  | lit (v : LitVal)
  | bin (op : String) (l r : Shape)
  | un (op : String) (r : Shape)
  | idn (name : String)
  | call (name : String) (args : List Shape)
  | asg (name : String) (v : Shape)
  deriving Repr

mutual

/-- Erase every position annotation of an expression tree. -/
def Expr.shape : Expr → Shape
  | .literal v _ => .lit v
  | .binOp op l r _ => .bin op l.shape r.shape
  | .unaryOp op r _ => .un op r.shape
  | .identExpr n _ => .idn n
  | .functionCall n args _ => .call n (shapeArgs args)
  | .assignment n v _ => .asg n v.shape

/-- Shapes of a list of argument expressions. -/
def shapeArgs : List Expr → List Shape
  | [] => []
  | e :: es => e.shape :: shapeArgs es

end

/-- Python runtime exceptions that the parser or scanner can raise, plus the
fuel-exhaustion marker of this embedding (never produced for the inputs and
fuel values considered below; the source has no corresponding behaviour). -/
inductive PyErr where
  | keyError
  | typeError
  | attrError
  | outOfFuel
  deriving DecidableEq, Repr

/-- The `Parser` object's state: its exclusively owned lexer, the filename
label, and the diagnostics printed so far by `emit_error` (modelled as an
ordered list of (message, offending token) pairs). -/
structure ParserState where
  lexer : Lexer
  filename : String
  diags : List (String × Token)
  deriving DecidableEq, Repr

/-- `Parser.peek`: the lexer's buffered lookahead token. -/
def pPeek (st : ParserState) : Token := st.lexer.next

/-- `Parser.advance`: pull one token from the lexer (an error propagates the
scanner's AttributeError raised while refilling the lookahead buffer). -/
def pAdvance (st : ParserState) : Except PyErr Token × ParserState :=
  match st.lexer.nextToken with
  | none => (.error .attrError, st)
  | some (t, L') => (.ok t, { st with lexer := L' })

/-- `Parser.emit_error`: records one diagnostic (the source prints it to
stderr; the message text and the offending token determine the printed
lines). -/
def emitError (message : String) (tok : Token) (st : ParserState) : ParserState :=
  { st with diags := st.diags ++ [(message, tok)] }

/-- `Parser.consume`: advance if the peeked token has the expected kind,
otherwise emit the diagnostic and return without advancing. -/
def pConsume (expected : TokenKind) (message : String) (st : ParserState) :
    Except PyErr Unit × ParserState :=
  if (pPeek st).kind ≠ expected then
    (.ok (), emitError message (pPeek st) st)
  else
    match pAdvance st with
    | (.error e, st1) => (.error e, st1)
    | (.ok _, st1) => (.ok (), st1)

/-- `Parser.parse_literal`. -/
def parseLiteral (st : ParserState) : Except PyErr Expr × ParserState :=
  match pAdvance st with
  | (.error e, st1) => (.error e, st1)
  | (.ok token, st1) =>
      if token.kind = .INTEGER then
        (.ok (.literal (.intV (pyInt token.value)) token.position), st1)
      else if token.kind = .FLOAT then
        (.ok (.literal (.floatV token.value) token.position), st1)
      else
        (.ok (.literal (.strV token.value) token.position), st1)

mutual

/-- `Parser.parse_expression`.  The fuel argument only bounds recursion depth
(the source recurses on the Python call stack); every Python-observable
behaviour, including the KeyError on a kind absent from `rules_map`, the
diagnostic plus TypeError when the rule has no prefix handler, and the
while-loop condition, is transcribed from the source. -/
def parseExpression : Nat → Nat → ParserState → Except PyErr Expr × ParserState
  | 0, _, st => (.error .outOfFuel, st)
  | fuel + 1, precedence, st =>
      match rulesMap (pPeek st).kind with
      | none => (.error .keyError, st)
      | some rule =>
          match rule.preRule with
          | none =>
              (.error .typeError,
               emitError ("Invalid Syntax: Expected expression, found " ++ (pPeek st).value)
                 (pPeek st) st)
          | some h =>
              match (match h with
                     | .literalH => parseLiteral st
                     | .identH => parseIdent fuel st
                     | .groupingH => parseGrouping fuel st
                     | .unaryH => parseUnary fuel st) with
              | (.error e, st2) => (.error e, st2)
              | (.ok lhs, st2) => parseLoop fuel precedence lhs st2

/-- The while-loop of `parse_expression`: comparing the minimum precedence
against a `None` infix power raises TypeError, and looking up a kind absent
from `rules_map` raises KeyError, exactly as in the source. -/
def parseLoop : Nat → Nat → Expr → ParserState → Except PyErr Expr × ParserState
  | 0, _, _, st => (.error .outOfFuel, st)
  | fuel + 1, precedence, lhs, st =>
      match (getPrecedence (pPeek st).kind).inPow with
      | none => (.error .typeError, st)
      | some ip =>
          if precedence < ip then
            match rulesMap (pPeek st).kind with
            | none => (.error .keyError, st)
            | some rule =>
                match rule.inRule with
                | none => (.error .typeError, st)
                | some .binaryH =>
                    match parseBinary fuel lhs st with
                    | (.error e, st1) => (.error e, st1)
                    | (.ok lhs1, st1) => parseLoop fuel precedence lhs1 st1
          else (.ok lhs, st)

/-- `Parser.parse_ident`. -/
def parseIdent : Nat → ParserState → Except PyErr Expr × ParserState
  | 0, st => (.error .outOfFuel, st)
  | fuel + 1, st =>
      match pAdvance st with
      | (.error e, st1) => (.error e, st1)
      | (.ok token, st1) =>
          if (pPeek st1).kind = .EQUAL then
            match pAdvance st1 with
            | (.error e, st2) => (.error e, st2)
            | (.ok _, st2) =>
                match parseExpression fuel 1 st2 with
                | (.error e, st3) => (.error e, st3)
                | (.ok value, st3) =>
                    (.ok (.assignment token.value value token.position), st3)
          else if (pPeek st1).kind = .OPEN_PAREN then
            match parseFunctionArgs fuel st1 with
            | (.error e, st2) => (.error e, st2)
            | (.ok args, st2) =>
                (.ok (.functionCall token.value args token.position), st2)
          else (.ok (.identExpr token.value token.position), st1)

/-- `Parser.parse_function_args`. -/
def parseFunctionArgs : Nat → ParserState → Except PyErr (List Expr) × ParserState
  | 0, st => (.error .outOfFuel, st)
  | fuel + 1, st =>
      match pConsume .OPEN_PAREN "Expected to find opening parenthesis `(`" st with
      | (.error e, st1) => (.error e, st1)
      | (.ok _, st1) =>
          match argsLoop fuel [] st1 with
          | (.error e, st2) => (.error e, st2)
          | (.ok args, st2) =>
              match pConsume .CLOSE_PAREN "Expected to find closing parenthesis `)`" st2 with
              | (.error e, st3) => (.error e, st3)
              | (.ok _, st3) => (.ok args, st3)

/-- The argument-collecting while-loop of `parse_function_args`. -/
def argsLoop : Nat → List Expr → ParserState → Except PyErr (List Expr) × ParserState
  | 0, _, st => (.error .outOfFuel, st)
  | fuel + 1, args, st =>
      if (pPeek st).kind = .CLOSE_PAREN then (.ok args, st)
      else
        match parseExpression fuel 1 st with
        | (.error e, st1) => (.error e, st1)
        | (.ok arg, st1) =>
            if (pPeek st1).kind = .COMMA then
              match pAdvance st1 with
              | (.error e, st2) => (.error e, st2)
              | (.ok _, st2) => argsLoop fuel (args ++ [arg]) st2
            else argsLoop fuel (args ++ [arg]) st1

/-- `Parser.parse_grouping`: consume the opening parenthesis, parse the inner
expression at precedence 1, require a closing parenthesis, and return the
inner node directly (no Grouping wrapper). -/
def parseGrouping : Nat → ParserState → Except PyErr Expr × ParserState
  | 0, st => (.error .outOfFuel, st)
  | fuel + 1, st =>
      match pAdvance st with
      | (.error e, st1) => (.error e, st1)
      | (.ok _, st1) =>
          match parseExpression fuel 1 st1 with
          | (.error e, st2) => (.error e, st2)
          | (.ok expr, st2) =>
              match pConsume .CLOSE_PAREN "Expected to find closing parenthesis `)`" st2 with
              | (.error e, st3) => (.error e, st3)
              | (.ok _, st3) => (.ok expr, st3)

/-- `Parser.parse_unary`.  If the consumed operator kind had no prefix power,
the recursive `parse_expression(None)` call's first loop comparison would
raise TypeError; the dispatch table only routes MINUS and BANG here, both of
which have prefix power 8, so that branch is unreachable from `rules_map`. -/
def parseUnary : Nat → ParserState → Except PyErr Expr × ParserState
  | 0, st => (.error .outOfFuel, st)
  | fuel + 1, st =>
      match pAdvance st with
      | (.error e, st1) => (.error e, st1)
      | (.ok op, st1) =>
          match (getPrecedence op.kind).prePow with
          | none => (.error .typeError, st1)
          | some precedence =>
              match parseExpression fuel precedence st1 with
              | (.error e, st2) => (.error e, st2)
              | (.ok expr, st2) =>
                  (.ok (.unaryOp op.value expr op.position), st2)

/-- `Parser.parse_binary`: consume the operator, parse the right-hand side at
the operator's infix power, and build a BinOp positioned at the left
operand's position.  The `none` power branch mirrors `parse_unary`'s and is
likewise unreachable from the loop, which only dispatches here after reading
an integer infix power. -/
def parseBinary : Nat → Expr → ParserState → Except PyErr Expr × ParserState
  | 0, _, st => (.error .outOfFuel, st)
  | fuel + 1, lhs, st =>
      match pAdvance st with
      | (.error e, st1) => (.error e, st1)
      | (.ok op, st1) =>
          match (getPrecedence op.kind).inPow with
          | none => (.error .typeError, st1)
          | some precedence =>
              match parseExpression fuel precedence st1 with
              | (.error e, st2) => (.error e, st2)
              | (.ok rhs, st2) =>
                  (.ok (.binOp op.value lhs rhs lhs.position), st2)

end

/-- `Parser.__init__`: construct the lexer (whose eager first `lex_token`
may raise) and start with no diagnostics. -/
def Parser.init (source filename : String) : Option ParserState :=
  (Lexer.init source).map fun L => ⟨L, filename, []⟩

/-- Run `Parser(source, "main.bl").parse_expression()` (the default minimum
precedence is 0). -/
def runParse (source : String) (fuel : Nat) : Option (Except PyErr Expr × ParserState) :=
  (Parser.init source "main.bl").map fun st => parseExpression fuel 0 st

/-- The successfully parsed expression, if any. -/
def parsedExpr (source : String) (fuel : Nat) : Option Expr :=
  match runParse source fuel with
  | some (.ok e, _) => some e
  | _ => none

/-- Whether the parse raised: `some none` means `parse_expression` returned
normally, `some (some e)` means it raised `e`, and `none` means the `Parser`
constructor itself raised while building the lexer. -/
def parseRaised (source : String) (fuel : Nat) : Option (Option PyErr) :=
  match runParse source fuel with
  | some (.ok _, _) => some none
  | some (.error e, _) => some (some e)
  | none => none

/-- The diagnostic messages emitted during the parse, in order. -/
def parseDiags (source : String) (fuel : Nat) : Option (List String) :=
  match runParse source fuel with
  | some (_, st) => some (st.diags.map Prod.fst)
  | none => none

/-! ## Round-trip infrastructure (claim about arithmetic/unary expressions)

The round-trip claim quantifies over the expression trees the parser builds
from arithmetic and unary expressions: BinOp nodes over the four arithmetic
operators, UnaryOp nodes over the two unary operators, and nonnegative
integer literals (the scanner's INTEGER texts carry no sign). -/

/-- The arithmetic/unary fragment of the expression AST. -/
inductive ArithTree : Expr → Prop
  | lit (n : Nat) (p : Position) : ArithTree (.literal (.intV (Int.ofNat n)) p)
  | un (op : String) (r : Expr) (p : Position)
      (hop : op = "-" ∨ op = "!") (hr : ArithTree r) : ArithTree (.unaryOp op r p)
  | bin (op : String) (l r : Expr) (p : Position)
      (hop : op = "+" ∨ op = "-" ∨ op = "*" ∨ op = "/")
      (hl : ArithTree l) (hr : ArithTree r) : ArithTree (.binOp op l r p)

/-- Value of a little-endian decimal digit list. -/
def digitsVal : List Nat → Nat
  | [] => 0
  | d :: ds => d + 10 * digitsVal ds

/-- The list does not start with a decimal digit (so a digit-accumulating
loop stops there). -/
def NoDigitHead : List Char → Prop
  | [] => True
  | c :: _ => c.isDigit = false

/-- The character suffixes that can follow a rendered subexpression: nothing,
a separating space, or a closing parenthesis. -/
def SepHead : List Char → Prop
  | [] => True
  | c :: _ => c = ' ' ∨ c = ')'

/-- The token kind whose canonical spelling is the given operator string. -/
def opTokenKind : String → TokenKind
  | "+" => .PLUS
  | "-" => .MINUS
  | "*" => .STAR
  | "/" => .SLASH
  | "!" => .BANG
  | _ => .ERROR

/-- The token sequence the scanner produces from the rendering of an
arithmetic/unary tree; in a rendered (single-line) source the line stays at
`l` and — because `advance` never increments it — the column stays at `col`,
so every token carries the same position. -/
def treeTokens (l col : Nat) : Expr → List Token
  | .literal (.intV i) _ => [mkToken .INTEGER ⟨l, col⟩ (some (natToDec i.natAbs))]
  | .binOp op lhs rhs _ =>
      mkToken .OPEN_PAREN ⟨l, col⟩ none ::
        (treeTokens l col lhs ++ [mkToken (opTokenKind op) ⟨l, col⟩ none] ++
          treeTokens l col rhs ++ [mkToken .CLOSE_PAREN ⟨l, col⟩ none])
  | .unaryOp op rhs _ =>
      mkToken .OPEN_PAREN ⟨l, col⟩ none :: mkToken (opTokenKind op) ⟨l, col⟩ none ::
        (treeTokens l col rhs ++ [mkToken .CLOSE_PAREN ⟨l, col⟩ none])
  | _ => []

/-- The tokens strictly inside the outer parentheses of a rendered tree (for
a literal, the whole token list). -/
def innerTokens (l col : Nat) : Expr → List Token
  | .literal (.intV i) _ => [mkToken .INTEGER ⟨l, col⟩ (some (natToDec i.natAbs))]
  | .binOp op lhs rhs _ =>
      treeTokens l col lhs ++ [mkToken (opTokenKind op) ⟨l, col⟩ none] ++
        treeTokens l col rhs
  | .unaryOp op rhs _ =>
      mkToken (opTokenKind op) ⟨l, col⟩ none :: treeTokens l col rhs
  | _ => []

mutual

/-- Replace every position annotation of a tree by the given one (re-parsing
a single-line rendering puts every node at the same position). -/
def setPos (p : Position) : Expr → Expr
  | .literal v _ => .literal v p
  | .binOp op l r _ => .binOp op (setPos p l) (setPos p r) p
  | .unaryOp op r _ => .unaryOp op (setPos p r) p
  | .identExpr n _ => .identExpr n p
  | .functionCall n args _ => .functionCall n (setPosArgs p args) p
  | .assignment n v _ => .assignment n (setPos p v) p

/-- `setPos` on each element of an argument list. -/
def setPosArgs (p : Position) : List Expr → List Expr
  | [] => []
  | e :: es => setPos p e :: setPosArgs p es

end

/-- Fuel sufficient for the recursion of `parse_expression` on the rendering
of the given tree (with generous padding). -/
def exprFuel : Expr → Nat
  | .binOp _ l r _ => exprFuel l + exprFuel r + 4
  | .unaryOp _ r _ => exprFuel r + 4
  | _ => 4

/-- The prefix handler that `parse_expression` dispatches on the first token
of a rendered tree: `parse_literal` for an integer literal, `parse_grouping`
for a parenthesised unary or binary node. -/
def prefixStep (fuel : Nat) (e : Expr) (st : ParserState) :
    Except PyErr Expr × ParserState :=
  match e with
  | .literal .. => parseLiteral st
  | _ => parseGrouping fuel st

/-- The prefix handler that `parse_expression` dispatches on the first token
of the inner (unparenthesised) token sequence of a rendered tree: the literal
handler for a literal, the unary handler for a unary node, and the left
operand's own prefix handler for a binary node. -/
def innerPrefixStep (fuel : Nat) (e : Expr) (st : ParserState) :
    Except PyErr Expr × ParserState :=
  match e with
  | .literal .. => parseLiteral st
  | .unaryOp .. => parseUnary fuel st
  | .binOp _ l _ _ => prefixStep fuel l st
  | _ => parseLiteral st

/-- Repeated `lex_token` calls from the first state produce exactly the given
tokens and leave the second state. -/
inductive LexesTo : LexState → List Token → LexState → Prop
  | nil (s : LexState) : LexesTo s [] s
  | cons {s : LexState} {t : Token} {s1 : LexState} {ts : List Token} {s2 : LexState}
      (h : lexToken s = some (t, s1)) (h2 : LexesTo s1 ts s2) : LexesTo s (t :: ts) s2

/-- Repeated `next_token()` calls on the buffered lexer produce exactly the
given tokens and leave the second buffered lexer. -/
inductive Streams : Lexer → List Token → Lexer → Prop
  | nil (L : Lexer) : Streams L [] L
  | cons {L : Lexer} {t : Token} {L' : Lexer} {ts : List Token} {L'' : Lexer}
      (h : L.nextToken = some (t, L')) (h2 : Streams L' ts L'') : Streams L (t :: ts) L''

end Bauble

namespace Bauble

/-! ## General lemmas about the scanner -/

theorem mkToken_kind (k : TokenKind) (p : Position) (v : Option String) :
    (mkToken k p v).kind = k := rfl

theorem keywordKind_ne_eof (v : String) : keywordKind v ≠ .EOF := by
  intro h
  unfold keywordKind at h
  cases hf : KEYWORDS.find? (fun p => p.1 = v) with
  | none => rw [hf] at h; exact TokenKind.noConfusion h
  | some p =>
      rw [hf] at h
      have hm := List.mem_of_find?_eq_some hf
      fin_cases hm <;> exact TokenKind.noConfusion h

theorem twoCharOp_kind (s : LexState) (e : Char) (two one : TokenKind) :
    (twoCharOp s e two one).1.kind = two ∨ (twoCharOp s e two one).1.kind = one := by
  unfold twoCharOp
  repeat' split
  all_goals simp [mkToken_kind]

theorem lexStringGo_kind (cs : List Char) (l col : Nat) (v : String) :
    (lexStringGo cs l col v).1.kind = .ERROR ∨ (lexStringGo cs l col v).1.kind = .STRING := by
  induction cs generalizing l col v with
  | nil => left; rfl
  | cons c cs ih =>
      unfold lexStringGo
      split
      · right; rfl
      · exact ih _ _ _

theorem lexNumber_kind (s : LexState) (c : Char) :
    (lexNumber s c).1.kind = .FLOAT ∨ (lexNumber s c).1.kind = .INTEGER := by
  unfold lexNumber
  by_cases hp : (lexNumGo s.rest s.line s.column (String.singleton c)).2.peekChar = some '.'
  · left; simp [hp, mkToken_kind]
  · right; simp [hp, mkToken_kind]

theorem lexIdentifier_kind_ne_eof (s : LexState) (c : Char) :
    (lexIdentifier s c).1.kind ≠ .EOF := by
  unfold lexIdentifier
  simpa [mkToken_kind] using keywordKind_ne_eof (lexIdentGo s.rest s.line s.column (String.singleton c)).1

theorem lexDispatch_kind_ne_eof (c : Char) (s : LexState) :
    (lexDispatch c s).1.kind ≠ .EOF := by
  intro h
  unfold lexDispatch at h
  by_cases hc1 : c = '('
  · rw [if_pos hc1] at h; exact TokenKind.noConfusion h
  rw [if_neg hc1] at h
  by_cases hc2 : c = ')'
  · rw [if_pos hc2] at h; exact TokenKind.noConfusion h
  rw [if_neg hc2] at h
  by_cases hc3 : c = '['
  · rw [if_pos hc3] at h; exact TokenKind.noConfusion h
  rw [if_neg hc3] at h
  by_cases hc4 : c = ']'
  · rw [if_pos hc4] at h; exact TokenKind.noConfusion h
  rw [if_neg hc4] at h
  by_cases hc5 : c = '\x7b'
  · rw [if_pos hc5] at h; exact TokenKind.noConfusion h
  rw [if_neg hc5] at h
  by_cases hc6 : c = '\x7d'
  · rw [if_pos hc6] at h; exact TokenKind.noConfusion h
  rw [if_neg hc6] at h
  by_cases hc7 : c = ','
  · rw [if_pos hc7] at h; exact TokenKind.noConfusion h
  rw [if_neg hc7] at h
  by_cases hc8 : c = '.'
  · rw [if_pos hc8] at h; exact TokenKind.noConfusion h
  rw [if_neg hc8] at h
  by_cases hc9 : c = ';'
  · rw [if_pos hc9] at h; exact TokenKind.noConfusion h
  rw [if_neg hc9] at h
  by_cases hc10 : c = '='
  · rw [if_pos hc10] at h
    rcases twoCharOp_kind s '=' .EQUAL_EQUAL .EQUAL with hx | hx <;> rw [hx] at h <;>
      exact TokenKind.noConfusion h
  rw [if_neg hc10] at h
  by_cases hc11 : c = '!'
  · rw [if_pos hc11] at h
    rcases twoCharOp_kind s '=' .BANG_EQUAL .BANG with hx | hx <;> rw [hx] at h <;>
      exact TokenKind.noConfusion h
  rw [if_neg hc11] at h
  by_cases hc12 : c = '>'
  · rw [if_pos hc12] at h
    rcases twoCharOp_kind s '=' .GREATER_EQUAL .GREATER with hx | hx <;> rw [hx] at h <;>
      exact TokenKind.noConfusion h
  rw [if_neg hc12] at h
  by_cases hc13 : c = '<'
  · rw [if_pos hc13] at h
    rcases twoCharOp_kind s '=' .LESS_EQUAL .LESS with hx | hx <;> rw [hx] at h <;>
      exact TokenKind.noConfusion h
  rw [if_neg hc13] at h
  by_cases hc14 : c = '+'
  · rw [if_pos hc14] at h; exact TokenKind.noConfusion h
  rw [if_neg hc14] at h
  by_cases hc15 : c = '-'
  · rw [if_pos hc15] at h; exact TokenKind.noConfusion h
  rw [if_neg hc15] at h
  by_cases hc16 : c = '*'
  · rw [if_pos hc16] at h; exact TokenKind.noConfusion h
  rw [if_neg hc16] at h
  by_cases hc17 : c = '/'
  · rw [if_pos hc17] at h; exact TokenKind.noConfusion h
  rw [if_neg hc17] at h
  by_cases hc18 : c = '\"'
  · rw [if_pos hc18] at h
    unfold lexString at h
    rcases lexStringGo_kind s.rest s.line s.column "" with hx | hx <;> rw [hx] at h <;>
      exact TokenKind.noConfusion h
  rw [if_neg hc18] at h
  by_cases hc19 : c.isDigit = true
  · rw [if_pos hc19] at h
    rcases lexNumber_kind s c with hx | hx <;> rw [hx] at h <;>
      exact TokenKind.noConfusion h
  rw [if_neg hc19] at h
  by_cases hc20 : isIdentChar c = true
  · rw [if_pos hc20] at h
    exact lexIdentifier_kind_ne_eof s c h
  rw [if_neg hc20] at h
  exact TokenKind.noConfusion h

theorem lexToken_nil (l col : Nat) :
    lexToken ⟨[], l, col⟩ = some (mkToken .EOF ⟨l, col⟩ none, ⟨[], l, col⟩) := rfl

/-- One unfolding of `lexToken` on a nonempty source suffix. -/
theorem lexToken_cons (c : Char) (cs : List Char) (l col : Nat) :
    lexToken ⟨c :: cs, l, col⟩ =
      match skipWsGo cs c (if c = '\n' then l + 1 else l) (if c = '\n' then 1 else col) with
      | (none, _) => none
      | (some c1, s2) =>
          some (lexDispatch c1
            (if c1 = '/' ∧ s2.peekChar = some '/' then
              skipCommentGo s2.rest s2.line s2.column
             else s2)) := rfl

/-- An EOF token is only ever produced with the scanner at the end of the
source, leaving the state unchanged. -/
theorem lexToken_eof_rest {s s' : LexState} {t : Token}
    (h : lexToken s = some (t, s')) (hk : t.kind = .EOF) : s' = s ∧ s.rest = [] := by
  rcases s with ⟨rest, l, col⟩
  rcases rest with _ | ⟨c, cs⟩
  · rw [lexToken_nil] at h
    injection h with h
    injection h with h1 h2
    exact ⟨h2.symm, rfl⟩
  · exfalso
    rw [lexToken_cons] at h
    rcases hw : skipWsGo cs c (if c = '\n' then l + 1 else l) (if c = '\n' then 1 else col)
      with ⟨oc, s2⟩
    rcases oc with _ | c1
    · rw [hw] at h
      simp at h
    · rw [hw] at h
      simp only at h
      injection h with h
      apply lexDispatch_kind_ne_eof c1
        (if c1 = '/' ∧ s2.peekChar = some '/' then
          skipCommentGo s2.rest s2.line s2.column
         else s2)
      rw [show t = (lexDispatch c1 _).1 from congrArg Prod.fst h.symm] at hk
      exact hk

/-! ## Decimal rendering round-trips through Python int() -/

theorem decDigits_val : ∀ (fuel n : Nat), n ≤ fuel → digitsVal (decDigits fuel n) = n := by
  intro fuel
  induction fuel with
  | zero => intro n h; interval_cases n; rfl
  | succ fuel ih =>
      intro n h
      unfold decDigits
      by_cases h0 : n = 0
      · simp [h0, digitsVal]
      · rw [if_neg h0]
        simp only [digitsVal]
        rw [ih (n / 10) (by omega)]
        omega

theorem decDigits_lt : ∀ (fuel n : Nat), ∀ d ∈ decDigits fuel n, d < 10 := by
  intro fuel
  induction fuel with
  | zero => intro n d hd; simp [decDigits] at hd
  | succ fuel ih =>
      intro n d hd
      unfold decDigits at hd
      by_cases h0 : n = 0
      · simp [h0] at hd
      · rw [if_neg h0] at hd
        rcases List.mem_cons.mp hd with rfl | hd
        · omega
        · exact ih _ _ hd

theorem digitChar_isDigit {d : Nat} (h : d < 10) : (Nat.digitChar d).isDigit = true := by
  interval_cases d <;> decide

theorem digitChar_val {d : Nat} (h : d < 10) : (Nat.digitChar d).toNat - 48 = d := by
  interval_cases d <;> decide

theorem natToDecChars_digits (n : Nat) : ∀ c ∈ natToDecChars n, c.isDigit = true := by
  intro c hc
  unfold natToDecChars at hc
  by_cases h0 : n = 0
  · rw [if_pos h0] at hc
    simp only [List.mem_singleton] at hc
    subst hc
    decide
  · rw [if_neg h0] at hc
    simp only [List.mem_map, List.mem_reverse] at hc
    obtain ⟨d, hd, rfl⟩ := hc
    exact digitChar_isDigit (decDigits_lt n n d hd)

theorem natToDecChars_ne_nil (n : Nat) : natToDecChars n ≠ [] := by
  unfold natToDecChars
  by_cases h0 : n = 0
  · simp [h0]
  · rw [if_neg h0]
    cases n with
    | zero => exact absurd rfl h0
    | succ m =>
        unfold decDigits
        rw [if_neg h0]
        simp

theorem foldl_pyIntStep_digits :
    ∀ (ds : List Nat), (∀ d ∈ ds, d < 10) → ∀ (a : Nat),
      List.foldl pyIntStep a ((ds.reverse).map Nat.digitChar) =
        a * 10 ^ ds.length + digitsVal ds := by
  intro ds
  induction ds with
  | nil => intro _ a; simp [digitsVal]
  | cons d t ih =>
      intro h a
      have hd : d < 10 := h d (List.mem_cons_self d t)
      have ht : ∀ x ∈ t, x < 10 := fun x hx => h x (List.mem_cons_of_mem d hx)
      simp only [List.reverse_cons, List.map_append, List.map_cons, List.map_nil,
        List.foldl_append, List.foldl_cons, List.foldl_nil]
      rw [ih ht a]
      simp only [pyIntStep, digitsVal, List.length_cons]
      rw [digitChar_val hd]
      ring

theorem pyIntNat_natToDec (n : Nat) : pyIntNat (natToDec n) = n := by
  show List.foldl pyIntStep 0 (natToDecChars n) = n
  unfold natToDecChars
  by_cases h0 : n = 0
  · rw [if_pos h0]
    subst h0
    decide
  · rw [if_neg h0]
    rw [foldl_pyIntStep_digits _ (decDigits_lt n n)]
    rw [decDigits_val n n le_rfl]
    simp

theorem pyInt_natToDec (n : Nat) : pyInt (natToDec n) = Int.ofNat n := by
  unfold pyInt
  rw [pyIntNat_natToDec]

theorem streamNth_zero (L : Lexer) : streamNth 0 L = (L.nextToken).map Prod.fst := rfl

theorem streamNth_succ (n : Nat) (L : Lexer) :
    streamNth (n + 1) L =
      match L.nextToken with
      | none => none
      | some (_, L') => streamNth n L' := rfl

/-- Pulling a token preserves the invariant that an EOF lookahead can only be
buffered with the scanner at the end of the source. -/
theorem nextToken_inv {L L' : Lexer} {t : Token} (h : L.nextToken = some (t, L')) :
    L'.next.kind = .EOF → L'.st.rest = [] := by
  intro hk
  unfold Lexer.nextToken at h
  cases hlt : lexToken L.st with
  | none => rw [hlt] at h; simp at h
  | some p =>
      rcases p with ⟨t1, s1⟩
      rw [hlt] at h
      simp only [Option.map_some'] at h
      injection h with h
      injection h with h1 h2
      rw [← h2] at hk
      have := lexToken_eof_rest hlt hk
      rw [← h2]
      rw [this.1]
      exact this.2

/-- The lexer constructor establishes the same invariant. -/
theorem init_inv {source : String} {L : Lexer} (h : Lexer.init source = some L) :
    L.next.kind = .EOF → L.st.rest = [] := by
  intro hk
  unfold Lexer.init at h
  cases hlt : lexToken ⟨source.toList, 1, 1⟩ with
  | none => rw [hlt] at h; simp at h
  | some p =>
      rcases p with ⟨t1, s1⟩
      rw [hlt] at h
      simp only [Option.map_some'] at h
      injection h with h
      rw [← h] at hk
      have := lexToken_eof_rest hlt hk
      rw [← h]
      rw [this.1]
      exact this.2

/-- Once the buffered-EOF invariant holds, an EOF answer at position n forces
an EOF answer at position n+1. -/
theorem streamNth_eof_step :
    ∀ (n : Nat) (L : Lexer) (t : Token),
      (L.next.kind = .EOF → L.st.rest = []) →
      streamNth n L = some t → t.kind = .EOF →
      ∃ t', streamNth (n + 1) L = some t' ∧ t'.kind = .EOF := by
  intro n
  induction n with
  | zero =>
      rintro ⟨nt, rest, l, col⟩ t hinv h hk
      rw [streamNth_zero] at h
      cases hnt : Lexer.nextToken ⟨nt, rest, l, col⟩ with
      | none => rw [hnt] at h; simp at h
      | some q =>
          rcases q with ⟨t0, L'⟩
          rw [hnt] at h
          simp only [Option.map_some'] at h
          injection h with h
          unfold Lexer.nextToken at hnt
          cases hlt : lexToken ⟨rest, l, col⟩ with
          | none => rw [hlt] at hnt; simp at hnt
          | some p =>
              rw [hlt] at hnt
              simp only [Option.map_some'] at hnt
              injection hnt with hnt
              injection hnt with hq1 hq2
              have hntk : nt.kind = .EOF := by rw [hq1, h]; exact hk
              have hrest : rest = [] := hinv hntk
              subst hrest
              refine ⟨mkToken .EOF ⟨l, col⟩ none, ?_, rfl⟩
              rw [streamNth_succ]
              have hnt2 : Lexer.nextToken ⟨nt, [], l, col⟩ =
                  some (nt, ⟨mkToken .EOF ⟨l, col⟩ none, ⟨[], l, col⟩⟩) := by
                unfold Lexer.nextToken
                rw [lexToken_nil]
                rfl
              rw [hnt2]
              simp only [streamNth_zero, Lexer.nextToken, lexToken_nil, Option.map_some']
  | succ n ih =>
      intro L t hinv h hk
      rw [streamNth_succ] at h
      cases hnt : L.nextToken with
      | none => rw [hnt] at h; simp at h
      | some q =>
          rcases q with ⟨t0, L'⟩
          rw [hnt] at h
          simp only at h
          obtain ⟨t', h', hk'⟩ := ih L' t (nextToken_inv hnt) h hk
          refine ⟨t', ?_, hk'⟩
          rw [streamNth_succ, hnt]
          exact h'

/-! ## Claim theorems (scanner-level) -/

/-- C9: the EOF token is absorbing — for every source string, once the n-th
`next_token()` call has returned a token of kind EOF, the following call also
returns a token of kind EOF (and in particular returns, rather than raising:
`advance` yields no character at or past the end of the source, so the stream
is total there). -/
theorem c9_eof_absorbing (source : String) (n : Nat) (t : Token)
    (h : sourceNth source n = some t) (hk : t.kind = .EOF) :
    ∃ t', sourceNth source (n + 1) = some t' ∧ t'.kind = .EOF := by
  unfold sourceNth at h ⊢
  cases hini : Lexer.init source with
  | none => rw [hini] at h; exact absurd h (by simp)
  | some L =>
      rw [hini] at h
      exact streamNth_eof_step n L t (init_inv hini) h hk

theorem c9_eof_absorbing_witness :
    ∃ t', sourceNth "" 1 = some t' ∧ t'.kind = .EOF :=
  c9_eof_absorbing "" 0 (mkToken .EOF ⟨1, 1⟩ none) (by decide) (by decide)

/-- C4 (code_bug evidence): the claim says that inputs consisting solely of
whitespace and/or line comments lex to an EOF-only stream without raising.
Instead: on the single-space input the whitespace-skipping loop exhausts the
source and `next_char.isnumeric()` raises AttributeError already inside
`Lexer.__init__`; the same happens after the INTEGER token of `"1 "`; and the
comment-only input `"//"` yields a SLASH token before EOF, because after the
comment-skip loop the dispatch chain still classifies the buffered `/`. -/
theorem c4_whitespace_comment_lexing :
    Lexer.init " " = none ∧
    sourceNth "1 " 0 = none ∧
    sourceTokens "//" 5 =
      some [mkToken .SLASH ⟨1, 1⟩ none, mkToken .EOF ⟨1, 1⟩ none] := by
  refine ⟨by decide, by decide, by decide⟩

/-- C5 (code_bug evidence): the claim says every non-newline character
increments the column counter.  In the source, `advance` only ever touches
`column` on a newline (resetting it to 1) and never increments it, so the
column after consuming any character is `if newline then 1 else unchanged`,
and the token starting at the third character of `"  5"` carries column 1,
not 3. -/
theorem c5_column_never_advances :
    (∀ (cs : List Char) (l col : Nat) (c : Char),
        (LexState.advance ⟨c :: cs, l, col⟩).2.column = if c = '\n' then 1 else col) ∧
    sourceNth "  5" 0 = some (mkToken .INTEGER ⟨1, 1⟩ (some "5")) := by
  exact ⟨fun cs l col c => rfl, by decide⟩

/-- A source whose first character is the opening quote dispatches straight
into `lex_string` (no whitespace is skipped, no comment branch fires). -/
theorem lexToken_quote (body : List Char) (l col : Nat) :
    lexToken ⟨'\"' :: body, l, col⟩ = some (lexStringGo body l col "") := rfl

/-- The string-accumulation loop on a remainder with no closing quote
consumes everything and produces the ERROR token with the exact source
message. -/
theorem lexStringGo_unterminated :
    ∀ (cs : List Char), '\"' ∉ cs → ∀ (l col : Nat) (v : String),
      ∃ l2 col2, lexStringGo cs l col v =
        (mkToken .ERROR ⟨l2, col2⟩
          (some "Unterminated string literal, expected to find closing quote, instead found EOF (End of File)"),
         ⟨[], l2, col2⟩) := by
  intro cs
  induction cs with
  | nil => intro _ l col v; exact ⟨l, col, rfl⟩
  | cons c t ih =>
      intro hmem l col v
      have hc : c ≠ '\"' := by
        intro h
        subst h
        exact hmem (List.mem_cons_self _ _)
      unfold lexStringGo
      rw [if_neg hc]
      exact ih (fun h => hmem (List.mem_cons_of_mem c h)) _ _ _

/-- C6: for every input that opens a string literal with `\"` and reaches the
end of input without a closing quote, the first token returned has kind ERROR
with the exact unterminated-string message as its value and the second token
returned has kind EOF, both through the normal token channel (`sourceNth`
returning `some` means no exception was raised); the concrete scenario
`"\"Unclosed String D:"` is stated alongside as an instance. -/
theorem c6_unterminated_string :
    (∀ (body : List Char), '\"' ∉ body →
      ∃ l2 col2,
        sourceNth ⟨'\"' :: body⟩ 0 = some (mkToken .ERROR ⟨l2, col2⟩
          (some "Unterminated string literal, expected to find closing quote, instead found EOF (End of File)")) ∧
        sourceNth ⟨'\"' :: body⟩ 1 = some (mkToken .EOF ⟨l2, col2⟩ none)) ∧
    sourceNth "\"Unclosed String D:" 0 =
      some (mkToken .ERROR ⟨1, 1⟩
        (some "Unterminated string literal, expected to find closing quote, instead found EOF (End of File)")) ∧
    sourceNth "\"Unclosed String D:" 1 = some (mkToken .EOF ⟨1, 1⟩ none) := by
  refine ⟨?_, by decide, by decide⟩
  intro body hb
  obtain ⟨l2, col2, hgo⟩ := lexStringGo_unterminated body hb 1 1 ""
  have hinit : Lexer.init ⟨'\"' :: body⟩ =
      some ⟨mkToken .ERROR ⟨l2, col2⟩
        (some "Unterminated string literal, expected to find closing quote, instead found EOF (End of File)"),
        ⟨[], l2, col2⟩⟩ := by
    unfold Lexer.init
    rw [show (⟨'\"' :: body⟩ : String).toList = '\"' :: body from rfl,
      lexToken_quote body 1 1, hgo]
    rfl
  refine ⟨l2, col2, ?_, ?_⟩
  · unfold sourceNth
    rw [hinit]
    rfl
  · unfold sourceNth
    rw [hinit]
    rfl

/-- The universal unterminated-string theorem applied at the one-character
body "U". -/
theorem c6_unterminated_string_witness :
    ∃ l2 col2,
      sourceNth ⟨'\"' :: ['U']⟩ 0 = some (mkToken .ERROR ⟨l2, col2⟩
        (some "Unterminated string literal, expected to find closing quote, instead found EOF (End of File)")) ∧
      sourceNth ⟨'\"' :: ['U']⟩ 1 = some (mkToken .EOF ⟨l2, col2⟩ none) :=
  c6_unterminated_string.1 ['U'] (by decide)

/-- C10: the two-character source consisting of an opening and a closing
quote lexes to a single STRING token built with the empty string as value,
which `Token.__init__`'s `value or kind.value` fallback replaces by the
kind's canonical spelling "STRING"; an empty value behaves like an absent
one, and no token of any kind ever carries an empty value. -/
theorem c10_empty_value_fallback :
    sourceTokens "\"\"" 5 =
      some [⟨.STRING, ⟨1, 1⟩, "STRING"⟩, ⟨.EOF, ⟨1, 1⟩, "End of File"⟩] ∧
    (∀ (k : TokenKind) (p : Position), mkToken k p (some "") = mkToken k p none) ∧
    (∀ (k : TokenKind) (p : Position) (v : Option String),
        0 < (mkToken k p v).value.length) := by
  refine ⟨by decide, ?_, ?_⟩
  · intro k p
    simp [mkToken, tokenValueOrCanonical]
  · intro k p v
    rcases v with _ | v
    · simp only [mkToken, tokenValueOrCanonical]
      cases k <;> decide
    · simp only [mkToken, tokenValueOrCanonical]
      split
      · cases k <;> decide
      · rename_i hv
        rcases v with ⟨data⟩
        rcases data with _ | ⟨a, l⟩
        · exact absurd rfl hv
        · simp [String.length]

/-! ## Claim theorems (parser-level, small concrete runs) -/

/-- C2 (code_bug evidence): the claim says a lookahead without an applicable
infix rule ends the loop with power 0 and returns the left operand without
raising.  Instead: on `"5 !"` the loop condition compares the integer 0 with
BANG's `None` infix power and raises TypeError, and on `"1 < 2"` LESS's
power 5 passes the comparison but the `rules_map[LESS]` lookup raises
KeyError.  Only kinds absent from `PRECEDENCE_MAP` (default power 0), such
as SEMICOLON in `"1 ;"`, end the loop as claimed. -/
theorem c2_no_infix_rule_raises :
    parseRaised "5 !" 20 = some (some .typeError) ∧
    parseRaised "1 < 2" 20 = some (some .keyError) ∧
    (parsedExpr "1 ;" 20).map renderExpr = some "1" := by
  refine ⟨by decide, by decide, by decide⟩

/-- C3 (code_bug evidence): the claim says a missing prefix handler produces
only the diagnostic, with no exception.  Instead: for `"+"` (PLUS has a rule
with no prefix handler) the diagnostic with the exact claimed message is
emitted but calling the `None` handler then raises TypeError; for `")"`
(CLOSE_PAREN absent from `rules_map`) the rule lookup raises KeyError before
any diagnostic is emitted. -/
theorem c3_missing_prefix_rule_raises :
    parseDiags "+" 20 = some ["Invalid Syntax: Expected expression, found +"] ∧
    parseRaised "+" 20 = some (some .typeError) ∧
    parseRaised ")" 20 = some (some .keyError) ∧
    parseDiags ")" 20 = some [] := by
  refine ⟨by decide, by decide, by decide, by decide⟩

/-- C8: when `consume` meets a lookahead of the wrong kind it only records
the diagnostic: no exception, and the parser state's lexer — both the
buffered lookahead token and the scanner position — is exactly what it was
before the call. -/
theorem c8_consume_mismatch_no_advance (st : ParserState) (expected : TokenKind)
    (message : String) (h : (pPeek st).kind ≠ expected) :
    (pConsume expected message st).1 = .ok () ∧
    (pConsume expected message st).2.lexer = st.lexer ∧
    (pConsume expected message st).2.diags = st.diags ++ [(message, pPeek st)] := by
  simp [pConsume, emitError, h]

theorem c8_consume_witness :
    (pConsume .CLOSE_PAREN "Expected to find closing parenthesis `)`"
        ⟨⟨⟨.INTEGER, ⟨1, 1⟩, "5"⟩, ⟨[], 1, 1⟩⟩, "main.bl", []⟩).1 = .ok () ∧
    (pConsume .CLOSE_PAREN "Expected to find closing parenthesis `)`"
        ⟨⟨⟨.INTEGER, ⟨1, 1⟩, "5"⟩, ⟨[], 1, 1⟩⟩, "main.bl", []⟩).2.lexer =
      ⟨⟨.INTEGER, ⟨1, 1⟩, "5"⟩, ⟨[], 1, 1⟩⟩ ∧
    (pConsume .CLOSE_PAREN "Expected to find closing parenthesis `)`"
        ⟨⟨⟨.INTEGER, ⟨1, 1⟩, "5"⟩, ⟨[], 1, 1⟩⟩, "main.bl", []⟩).2.diags =
      [("Expected to find closing parenthesis `)`", ⟨.INTEGER, ⟨1, 1⟩, "5"⟩)] :=
  c8_consume_mismatch_no_advance
    ⟨⟨⟨.INTEGER, ⟨1, 1⟩, "5"⟩, ⟨[], 1, 1⟩⟩, "main.bl", []⟩ .CLOSE_PAREN
    "Expected to find closing parenthesis `)`" (by decide)

end Bauble

namespace Bauble

/-! ## Scanner steps over rendered arithmetic text -/

theorem ne_of_isDigit {c x : Char} (h : c.isDigit = true) (hx : x.isDigit = false) :
    c ≠ x := by
  intro hcx
  subst hcx
  rw [h] at hx
  exact Bool.noConfusion hx

theorem isDigit_not_ws {c : Char} (h : c.isDigit = true) : isWhitespace c = false := by
  unfold isWhitespace
  simp [(ne_of_isDigit h (by decide) : c ≠ ' '), (ne_of_isDigit h (by decide) : c ≠ '\t'),
    (ne_of_isDigit h (by decide) : c ≠ '\n'), (ne_of_isDigit h (by decide) : c ≠ '\r')]

theorem lexDispatch_digit {c : Char} (h : c.isDigit = true) (s : LexState) :
    lexDispatch c s = lexNumber s c := by
  unfold lexDispatch
  rw [if_neg (ne_of_isDigit h (by decide)), if_neg (ne_of_isDigit h (by decide)),
    if_neg (ne_of_isDigit h (by decide)), if_neg (ne_of_isDigit h (by decide)),
    if_neg (ne_of_isDigit h (by decide)), if_neg (ne_of_isDigit h (by decide)),
    if_neg (ne_of_isDigit h (by decide)), if_neg (ne_of_isDigit h (by decide)),
    if_neg (ne_of_isDigit h (by decide)), if_neg (ne_of_isDigit h (by decide)),
    if_neg (ne_of_isDigit h (by decide)), if_neg (ne_of_isDigit h (by decide)),
    if_neg (ne_of_isDigit h (by decide)), if_neg (ne_of_isDigit h (by decide)),
    if_neg (ne_of_isDigit h (by decide)), if_neg (ne_of_isDigit h (by decide)),
    if_neg (ne_of_isDigit h (by decide)), if_neg (ne_of_isDigit h (by decide)),
    if_pos h]

theorem skipWsGo_not_ws {c : Char} (h : isWhitespace c = false) (rest : List Char)
    (l col : Nat) : skipWsGo rest c l col = (some c, ⟨rest, l, col⟩) := by
  unfold skipWsGo
  rw [if_neg (by simp [h])]

theorem skipWsLoop_clean_head {c : Char} (hws : isWhitespace c = false) (hnl : c ≠ '\n')
    (cs : List Char) (l col : Nat) :
    skipWsLoop (c :: cs) l col = (some c, ⟨cs, l, col⟩) := by
  rw [skipWsLoop]
  rw [if_neg (by simp [hws]), if_neg hnl, if_neg hnl]

theorem lexToken_open (rest : List Char) (l col : Nat) :
    lexToken ⟨'(' :: rest, l, col⟩ =
      some (mkToken .OPEN_PAREN ⟨l, col⟩ none, ⟨rest, l, col⟩) := rfl

theorem lexToken_close (rest : List Char) (l col : Nat) :
    lexToken ⟨')' :: rest, l, col⟩ =
      some (mkToken .CLOSE_PAREN ⟨l, col⟩ none, ⟨rest, l, col⟩) := rfl

theorem lexToken_plus (rest : List Char) (l col : Nat) :
    lexToken ⟨'+' :: rest, l, col⟩ =
      some (mkToken .PLUS ⟨l, col⟩ none, ⟨rest, l, col⟩) := rfl

theorem lexToken_minus (rest : List Char) (l col : Nat) :
    lexToken ⟨'-' :: rest, l, col⟩ =
      some (mkToken .MINUS ⟨l, col⟩ none, ⟨rest, l, col⟩) := rfl

theorem lexToken_star (rest : List Char) (l col : Nat) :
    lexToken ⟨'*' :: rest, l, col⟩ =
      some (mkToken .STAR ⟨l, col⟩ none, ⟨rest, l, col⟩) := rfl

theorem lexToken_slash_sp (cs : List Char) (l col : Nat) :
    lexToken ⟨'/' :: ' ' :: cs, l, col⟩ =
      some (mkToken .SLASH ⟨l, col⟩ none, ⟨' ' :: cs, l, col⟩) := rfl

theorem lexToken_bang_sp (cs : List Char) (l col : Nat) :
    lexToken ⟨'!' :: ' ' :: cs, l, col⟩ =
      some (mkToken .BANG ⟨l, col⟩ none, ⟨' ' :: cs, l, col⟩) := rfl

theorem lexToken_digit_head {c : Char} (h : c.isDigit = true) (cs : List Char)
    (l col : Nat) :
    lexToken ⟨c :: cs, l, col⟩ = some (lexNumber ⟨cs, l, col⟩ c) := by
  have hnl : c ≠ '\n' := ne_of_isDigit h (by decide)
  rw [lexToken_cons]
  rw [if_neg hnl, if_neg hnl]
  rw [skipWsGo_not_ws (isDigit_not_ws h)]
  dsimp only
  rw [if_neg (fun hand => (ne_of_isDigit h (by decide) : c ≠ '/') hand.1)]
  rw [lexDispatch_digit h]

theorem lexNumGo_digits :
    ∀ (ds : List Char), (∀ c ∈ ds, c.isDigit = true) →
      ∀ (rest : List Char), NoDigitHead rest → ∀ (l col : Nat) (v : List Char),
        lexNumGo (ds ++ rest) l col ⟨v⟩ = (⟨v ++ ds⟩, ⟨rest, l, col⟩) := by
  intro ds
  induction ds with
  | nil =>
      intro _ rest hrest l col v
      cases rest with
      | nil => simp [lexNumGo]
      | cons c cs =>
          have hc : c.isDigit = false := hrest
          simp [lexNumGo, hc]
  | cons d t ih =>
      intro h rest hrest l col v
      have hd : d.isDigit = true := h d (List.mem_cons_self d t)
      have ht : ∀ c ∈ t, c.isDigit = true := fun c hc => h c (List.mem_cons_of_mem d hc)
      rw [List.cons_append]
      rw [lexNumGo]
      rw [if_pos hd]
      rw [show (⟨v⟩ : String).push d = ⟨v ++ [d]⟩ from rfl]
      rw [ih ht rest hrest l col (v ++ [d])]
      simp

theorem lexNumber_digits (d : Char) (ds rest : List Char)
    (hds : ∀ c ∈ ds, c.isDigit = true) (hrest : NoDigitHead rest)
    (hdot : rest.head? ≠ some '.') (l col : Nat) :
    lexNumber ⟨ds ++ rest, l, col⟩ d =
      (mkToken .INTEGER ⟨l, col⟩ (some ⟨d :: ds⟩), ⟨rest, l, col⟩) := by
  unfold lexNumber
  rw [show String.singleton d = (⟨[d]⟩ : String) from rfl]
  rw [show (⟨ds ++ rest, l, col⟩ : LexState).rest = ds ++ rest from rfl]
  rw [lexNumGo_digits ds hds rest hrest l col [d]]
  dsimp only [LexState.peekChar]
  rw [if_neg hdot]
  simp

theorem lexToken_int (n : Nat) (rest : List Char) (l col : Nat) (hsep : SepHead rest) :
    lexToken ⟨natToDecChars n ++ rest, l, col⟩ =
      some (mkToken .INTEGER ⟨l, col⟩ (some (natToDec n)), ⟨rest, l, col⟩) := by
  have hne := natToDecChars_ne_nil n
  have hdig := natToDecChars_digits n
  cases hnc : natToDecChars n with
  | nil => exact absurd hnc hne
  | cons d ds =>
      rw [hnc] at hdig
      have hd : d.isDigit = true := hdig d (List.mem_cons_self d ds)
      have hds : ∀ c ∈ ds, c.isDigit = true := fun c hc => hdig c (List.mem_cons_of_mem d hc)
      have hrest : NoDigitHead rest := by
        cases rest with
        | nil => trivial
        | cons c cs =>
            have hsep' : c = ' ' ∨ c = ')' := hsep
            rcases hsep' with rfl | rfl
            · show (' ' : Char).isDigit = false
              decide
            · show (')' : Char).isDigit = false
              decide
      have hdot : rest.head? ≠ some '.' := by
        cases rest with
        | nil => simp
        | cons c cs =>
            have hsep' : c = ' ' ∨ c = ')' := hsep
            rcases hsep' with rfl | rfl <;> simp
      rw [List.cons_append]
      rw [lexToken_digit_head hd]
      rw [lexNumber_digits d ds rest hds hrest hdot]
      rw [show (⟨d :: ds⟩ : String) = natToDec n from by unfold natToDec; rw [hnc]]

theorem lexToken_space_peel {c : Char} (hws : isWhitespace c = false) (hnl : c ≠ '\n')
    (cs : List Char) (l col : Nat) :
    lexToken ⟨' ' :: c :: cs, l, col⟩ = lexToken ⟨c :: cs, l, col⟩ := by
  rw [lexToken_cons, lexToken_cons]
  rw [show (if (' ' : Char) = '\n' then l + 1 else l) = l from rfl]
  rw [show (if (' ' : Char) = '\n' then 1 else col) = col from rfl]
  rw [show skipWsGo (c :: cs) ' ' l col = skipWsLoop (c :: cs) l col from by
    unfold skipWsGo; rw [if_pos (by decide)]]
  rw [skipWsLoop_clean_head hws hnl]
  rw [if_neg hnl, if_neg hnl]
  rw [skipWsGo_not_ws hws]

end Bauble

namespace Bauble

/-! ## Lexing a rendered arithmetic tree -/

theorem strDataAppend (a b : String) : (a ++ b).data = a.data ++ b.data := rfl

theorem LexesTo.append {s1 : LexState} {ts1 : List Token} {s2 : LexState}
    (h1 : LexesTo s1 ts1 s2) :
    ∀ {ts2 : List Token} {s3 : LexState}, LexesTo s2 ts2 s3 → LexesTo s1 (ts1 ++ ts2) s3 := by
  induction h1 with
  | nil s => intro ts2 s3 h2; exact h2
  | cons h hrec ih => intro ts2 s3 h2; exact LexesTo.cons h (ih h2)

theorem render_lit_data (n : Nat) (p : Position) :
    (renderExpr (.literal (.intV (Int.ofNat n)) p)).data = natToDecChars n := by
  show (if (Int.ofNat n : Int) < 0 then "-" ++ natToDec (Int.ofNat n).natAbs
        else natToDec (Int.ofNat n).natAbs).data = natToDecChars n
  rw [if_neg (show ¬(Int.ofNat n < 0) from Int.not_lt.mpr (Int.ofNat_nonneg n))]
  rfl

theorem render_bin_data (op : String) (l r : Expr) (p : Position) :
    (renderExpr (.binOp op l r p)).data =
      '(' :: ((renderExpr l).data ++ ' ' :: (op.data ++ ' ' :: ((renderExpr r).data ++ [')']))) := by
  show ("(" ++ renderExpr l ++ " " ++ op ++ " " ++ renderExpr r ++ ")").data = _
  simp only [strDataAppend, List.append_assoc,
    show ("(" : String).data = ['('] from rfl,
    show (" " : String).data = [' '] from rfl,
    show (")" : String).data = [')'] from rfl,
    List.cons_append, List.nil_append, List.singleton_append]

theorem render_un_data (op : String) (r : Expr) (p : Position) :
    (renderExpr (.unaryOp op r p)).data =
      '(' :: (op.data ++ ' ' :: ((renderExpr r).data ++ [')'])) := by
  show ("(" ++ op ++ " " ++ renderExpr r ++ ")").data = _
  simp only [strDataAppend, List.append_assoc,
    show ("(" : String).data = ['('] from rfl,
    show (" " : String).data = [' '] from rfl,
    show (")" : String).data = [')'] from rfl,
    List.cons_append, List.nil_append, List.singleton_append]

theorem render_head {e : Expr} (h : ArithTree e) :
    ∃ c cs, (renderExpr e).data = c :: cs ∧ isWhitespace c = false ∧ c ≠ '\n' := by
  cases h with
  | lit n p =>
      rw [render_lit_data]
      cases hnc : natToDecChars n with
      | nil => exact absurd hnc (natToDecChars_ne_nil n)
      | cons d ds =>
          have hd : d.isDigit = true := by
            have := natToDecChars_digits n
            rw [hnc] at this
            exact this d (List.mem_cons_self d ds)
          exact ⟨d, ds, rfl, isDigit_not_ws hd, ne_of_isDigit hd (by decide)⟩
  | un op r p hop hr =>
      rw [render_un_data]
      exact ⟨'(', _, rfl, by decide, by decide⟩
  | bin op l r p hop hl hr =>
      rw [render_bin_data]
      exact ⟨'(', _, rfl, by decide, by decide⟩

theorem treeTokens_ne_nil {e : Expr} (h : ArithTree e) (l col : Nat) :
    treeTokens l col e ≠ [] := by
  cases h <;> simp [treeTokens]

/-- A leading separator space is absorbed by the first token of a clean
character sequence. -/
theorem LexesTo.sp {X : List Char} {l col : Nat} {ts : List Token} {s' : LexState}
    (hX : ∃ c cs, X = c :: cs ∧ isWhitespace c = false ∧ c ≠ '\n')
    (hts : ts ≠ []) (h : LexesTo ⟨X, l, col⟩ ts s') :
    LexesTo ⟨' ' :: X, l, col⟩ ts s' := by
  cases h with
  | nil => exact absurd rfl hts
  | cons hstep htail =>
      obtain ⟨c, cs, rfl, hws, hnl⟩ := hX
      exact LexesTo.cons (by rw [lexToken_space_peel hws hnl]; exact hstep) htail

/-- The op-token, right operand and closing parenthesis of a rendered
compound node, starting just after the operator character. -/
theorem lexes_op_rhs_close {r : Expr} (hr : ArithTree r)
    (ih : ∀ (rest : List Char) (l col : Nat), SepHead rest →
      LexesTo ⟨(renderExpr r).data ++ rest, l, col⟩ (treeTokens l col r) ⟨rest, l, col⟩)
    (opc : Char) (opk : TokenKind)
    (hstep : ∀ (cs : List Char) (l col : Nat),
      lexToken ⟨opc :: ' ' :: cs, l, col⟩ =
        some (mkToken opk ⟨l, col⟩ none, ⟨' ' :: cs, l, col⟩))
    (rest : List Char) (l col : Nat) :
    LexesTo ⟨opc :: ' ' :: ((renderExpr r).data ++ ')' :: rest), l, col⟩
      (mkToken opk ⟨l, col⟩ none ::
        (treeTokens l col r ++ [mkToken .CLOSE_PAREN ⟨l, col⟩ none]))
      ⟨rest, l, col⟩ := by
  obtain ⟨c, cs, hc, hws, hnl⟩ := render_head hr
  have hR := ih (')' :: rest) l col (Or.inr rfl)
  have hRsp : LexesTo ⟨' ' :: ((renderExpr r).data ++ ')' :: rest), l, col⟩
      (treeTokens l col r) ⟨')' :: rest, l, col⟩ := by
    refine LexesTo.sp ⟨c, cs ++ ')' :: rest, ?_, hws, hnl⟩ (treeTokens_ne_nil hr l col) hR
    rw [hc]
    rfl
  have hClose : LexesTo ⟨')' :: rest, l, col⟩
      [mkToken .CLOSE_PAREN ⟨l, col⟩ none] ⟨rest, l, col⟩ :=
    LexesTo.cons (lexToken_close rest l col) (LexesTo.nil _)
  exact LexesTo.cons (hstep _ l col) (hRsp.append hClose)

/-- The same segment with its leading separator space. -/
theorem lexes_sp_op_rhs_close {r : Expr} (hr : ArithTree r)
    (ih : ∀ (rest : List Char) (l col : Nat), SepHead rest →
      LexesTo ⟨(renderExpr r).data ++ rest, l, col⟩ (treeTokens l col r) ⟨rest, l, col⟩)
    (opc : Char) (opk : TokenKind)
    (hws : isWhitespace opc = false) (hnl : opc ≠ '\n')
    (hstep : ∀ (cs : List Char) (l col : Nat),
      lexToken ⟨opc :: ' ' :: cs, l, col⟩ =
        some (mkToken opk ⟨l, col⟩ none, ⟨' ' :: cs, l, col⟩))
    (rest : List Char) (l col : Nat) :
    LexesTo ⟨' ' :: opc :: ' ' :: ((renderExpr r).data ++ ')' :: rest), l, col⟩
      (mkToken opk ⟨l, col⟩ none ::
        (treeTokens l col r ++ [mkToken .CLOSE_PAREN ⟨l, col⟩ none]))
      ⟨rest, l, col⟩ := by
  refine LexesTo.sp ⟨opc, ' ' :: ((renderExpr r).data ++ ')' :: rest), rfl, hws, hnl⟩
    (by simp) ?_
  exact lexes_op_rhs_close hr ih opc opk hstep rest l col

theorem lexes_tree {e : Expr} (h : ArithTree e) :
    ∀ (rest : List Char) (l col : Nat), SepHead rest →
      LexesTo ⟨(renderExpr e).data ++ rest, l, col⟩ (treeTokens l col e) ⟨rest, l, col⟩ := by
  induction h with
  | lit n p =>
      intro rest l col hsep
      rw [render_lit_data]
      show LexesTo _ [mkToken .INTEGER ⟨l, col⟩ (some (natToDec n))] _
      exact LexesTo.cons (lexToken_int n rest l col hsep) (LexesTo.nil _)
  | un op r p hop hr ih =>
      intro rest l col hsep
      rw [render_un_data]
      rcases hop with rfl | rfl
      · simp only [List.cons_append, List.append_assoc, List.singleton_append,
          show ("-" : String).data = ['-'] from rfl]
        exact LexesTo.cons (lexToken_open _ l col)
          (lexes_op_rhs_close hr ih '-' .MINUS (fun cs l col => lexToken_minus _ l col)
            rest l col)
      · simp only [List.cons_append, List.append_assoc, List.singleton_append,
          show ("!" : String).data = ['!'] from rfl]
        exact LexesTo.cons (lexToken_open _ l col)
          (lexes_op_rhs_close hr ih '!' .BANG (fun cs l col => lexToken_bang_sp _ l col)
            rest l col)
  | bin op l r p hop hl hr ihl ihr =>
      intro rest ln col hsep
      rw [render_bin_data]
      have hchars : ∀ (opc : Char),
          ('(' :: ((renderExpr l).data ++
            ' ' :: ([opc] ++ ' ' :: ((renderExpr r).data ++ [')'])))) ++ rest =
          '(' :: ((renderExpr l).data ++
            (' ' :: opc :: ' ' :: ((renderExpr r).data ++ ')' :: rest))) := by
        intro opc
        simp
      have htoks : ∀ (opk : TokenKind),
          mkToken .OPEN_PAREN ⟨ln, col⟩ none ::
            (treeTokens ln col l ++ [mkToken opk ⟨ln, col⟩ none] ++
              treeTokens ln col r ++ [mkToken .CLOSE_PAREN ⟨ln, col⟩ none]) =
          mkToken .OPEN_PAREN ⟨ln, col⟩ none ::
            (treeTokens ln col l ++
              (mkToken opk ⟨ln, col⟩ none ::
                (treeTokens ln col r ++ [mkToken .CLOSE_PAREN ⟨ln, col⟩ none]))) := by
        intro opk
        simp
      have main : ∀ (opc : Char) (opk : TokenKind),
          isWhitespace opc = false → opc ≠ '\n' →
          (∀ (cs : List Char) (l2 col2 : Nat),
            lexToken ⟨opc :: ' ' :: cs, l2, col2⟩ =
              some (mkToken opk ⟨l2, col2⟩ none, ⟨' ' :: cs, l2, col2⟩)) →
          LexesTo ⟨'(' :: ((renderExpr l).data ++
              (' ' :: opc :: ' ' :: ((renderExpr r).data ++ ')' :: rest))), ln, col⟩
            (mkToken .OPEN_PAREN ⟨ln, col⟩ none ::
              (treeTokens ln col l ++
                (mkToken opk ⟨ln, col⟩ none ::
                  (treeTokens ln col r ++ [mkToken .CLOSE_PAREN ⟨ln, col⟩ none]))))
            ⟨rest, ln, col⟩ := by
        intro opc opk hws hnl hstep
        refine LexesTo.cons (lexToken_open _ ln col) ?_
        have hmid := lexes_sp_op_rhs_close hr ihr opc opk hws hnl hstep rest ln col
        have hL := ihl (' ' :: opc :: ' ' :: ((renderExpr r).data ++ ')' :: rest)) ln col
          (Or.inl rfl)
        exact hL.append hmid
      rcases hop with rfl | rfl | rfl | rfl
      · simp only [treeTokens]
        rw [hchars, htoks]
        exact main '+' .PLUS (by decide) (by decide) (fun cs l2 c2 => lexToken_plus _ l2 c2)
      · simp only [treeTokens]
        rw [hchars, htoks]
        exact main '-' .MINUS (by decide) (by decide) (fun cs l2 c2 => lexToken_minus _ l2 c2)
      · simp only [treeTokens]
        rw [hchars, htoks]
        exact main '*' .STAR (by decide) (by decide) (fun cs l2 c2 => lexToken_star _ l2 c2)
      · simp only [treeTokens]
        rw [hchars, htoks]
        exact main '/' .SLASH (by decide) (by decide) (fun cs l2 c2 => lexToken_slash_sp _ l2 c2)

end Bauble

namespace Bauble

/-! ## Token streams as seen by the parser -/

theorem Streams.peek {L : Lexer} {t : Token} {ts : List Token} {L'' : Lexer}
    (h : Streams L (t :: ts) L'') : pPeek ⟨L, "main.bl", []⟩ = t := by
  cases h with
  | cons hstep htail =>
      unfold Lexer.nextToken at hstep
      cases hlt : lexToken L.st with
      | none => rw [hlt] at hstep; simp at hstep
      | some p =>
          rw [hlt] at hstep
          simp only [Option.map_some'] at hstep
          injection hstep with hstep
          exact congrArg Prod.fst hstep

theorem Streams.next_eq {L : Lexer} {t : Token} {ts : List Token} {L'' : Lexer}
    (h : Streams L (t :: ts) L'') : L.next = t := Streams.peek h

theorem Streams.consume {L : Lexer} {t : Token} {ts : List Token} {L'' : Lexer}
    (h : Streams L (t :: ts) L'') :
    ∃ L', L.nextToken = some (t, L') ∧ Streams L' ts L'' := by
  cases h with
  | cons hstep htail => exact ⟨_, hstep, htail⟩

theorem lexesTo_streams :
    ∀ {ts : List Token} {s s' : LexState} {tlast : Token} (t0 : Token),
      LexesTo s (ts ++ [tlast]) s' → Streams ⟨t0, s⟩ (t0 :: ts) ⟨tlast, s'⟩ := by
  intro ts
  induction ts with
  | nil =>
      intro s s' tlast t0 h
      cases h with
      | cons hstep htail =>
          cases htail
          refine Streams.cons ?_ (Streams.nil _)
          unfold Lexer.nextToken
          rw [hstep]
          rfl
  | cons t1 ts ih =>
      intro s s' tlast t0 h
      cases h with
      | cons hstep htail =>
          refine Streams.cons ?_ (ih t1 htail)
          unfold Lexer.nextToken
          rw [hstep]
          rfl

/-! ## Small parser-state lemmas -/

theorem exprFuel_ge_four (e : Expr) : 4 ≤ exprFuel e := by
  cases e <;> (unfold exprFuel; omega)

theorem natToDec_ne_empty (n : Nat) : natToDec n ≠ "" := by
  unfold natToDec
  intro h
  exact natToDecChars_ne_nil n (congrArg String.data h)

theorem mkToken_position (k : TokenKind) (p : Position) (v : Option String) :
    (mkToken k p v).position = p := rfl

theorem mkToken_value_some {v : String} (h : v ≠ "") (k : TokenKind) (p : Position) :
    (mkToken k p (some v)).value = v := by
  simp [mkToken, tokenValueOrCanonical, h]

theorem setPos_position (p : Position) (e : Expr) : (setPos p e).position = p := by
  cases e <;> rfl

theorem pAdvance_of {st : ParserState} {t : Token} {L' : Lexer}
    (h : st.lexer.nextToken = some (t, L')) :
    pAdvance st = (.ok t, { st with lexer := L' }) := by
  unfold pAdvance
  rw [h]

theorem pPeek_of {st : ParserState} {t : Token} {ts : List Token} {L'' : Lexer}
    (h : Streams st.lexer (t :: ts) L'') : pPeek st = t := Streams.next_eq h

theorem pConsume_ok {st : ParserState} {expected : TokenKind} {t : Token} {L' : Lexer}
    (hpeek : pPeek st = t) (hk : t.kind = expected)
    (hadv : st.lexer.nextToken = some (t, L')) (message : String) :
    pConsume expected message st = (.ok (), { st with lexer := L' }) := by
  unfold pConsume
  rw [hpeek, hk]
  rw [if_neg (by simp)]
  rw [pAdvance_of hadv]

end Bauble

namespace Bauble

/-! ## The parser on a streamed rendered tree -/

theorem parseExpression_start {e : Expr} (h : ArithTree e) {st : ParserState}
    {rest : List Token} {Lend : Lexer}
    (hs : Streams st.lexer (treeTokens 1 1 e ++ rest) Lend) (fuel p : Nat) :
    parseExpression (fuel + 1) p st =
      match prefixStep fuel e st with
      | (.error err, st2) => (.error err, st2)
      | (.ok lhs, st2) => parseLoop fuel p lhs st2 := by
  cases h with
  | lit n pos =>
      have hpeek : pPeek st = mkToken .INTEGER ⟨1, 1⟩ (some (natToDec n)) := pPeek_of hs
      rw [parseExpression, hpeek]
      rfl
  | un op r pos hop hr =>
      have hpeek : pPeek st = mkToken .OPEN_PAREN ⟨1, 1⟩ none := pPeek_of hs
      rw [parseExpression, hpeek]
      rfl
  | bin op l r pos hop hl hr =>
      have hpeek : pPeek st = mkToken .OPEN_PAREN ⟨1, 1⟩ none := pPeek_of hs
      rw [parseExpression, hpeek]
      rfl

theorem parseLoop_exit {st : ParserState} {r0 : Token} {ts : List Token} {Lend : Lexer}
    (hs : Streams st.lexer (r0 :: ts) Lend)
    (hpow : (getPrecedence r0.kind).inPow = some 0)
    (fuel p : Nat) (lhs : Expr) :
    parseLoop (fuel + 1) p lhs st = (.ok lhs, st) := by
  rw [parseLoop]
  rw [pPeek_of hs]
  rw [hpow]
  dsimp only
  rw [if_neg (Nat.not_lt_zero p)]

theorem prefix_of_lit (n : Nat) (pos : Position) (fuel : Nat) (st : ParserState)
    (rest : List Token) (Lend : Lexer)
    (hs : Streams st.lexer
      (treeTokens 1 1 (.literal (.intV (Int.ofNat n)) pos) ++ rest) Lend) :
    ∃ L', prefixStep fuel (.literal (.intV (Int.ofNat n)) pos) st =
        (.ok (setPos ⟨1, 1⟩ (.literal (.intV (Int.ofNat n)) pos)),
         { st with lexer := L' }) ∧
      Streams L' rest Lend := by
  rw [show treeTokens 1 1 (.literal (.intV (Int.ofNat n)) pos) =
      [mkToken .INTEGER ⟨1, 1⟩ (some (natToDec n))] from rfl] at hs
  obtain ⟨L1, hadv, hs1⟩ := Streams.consume hs
  refine ⟨L1, ?_, hs1⟩
  show parseLiteral st = _
  unfold parseLiteral
  rw [pAdvance_of hadv]
  dsimp only
  rw [if_pos (show (mkToken .INTEGER ⟨1, 1⟩ (some (natToDec n))).kind = .INTEGER from rfl)]
  rw [mkToken_value_some (natToDec_ne_empty n)]
  rw [pyInt_natToDec]
  rfl

/-- The grouping handler on the parenthesised rendering of a compound node,
given the behaviour of `parse_expression` on its inner token sequence. -/
theorem grouping_step {e : Expr}
    (hsplit : treeTokens 1 1 e =
      mkToken .OPEN_PAREN ⟨1, 1⟩ none ::
        (innerTokens 1 1 e ++ [mkToken .CLOSE_PAREN ⟨1, 1⟩ none]))
    (hI : ∀ (fuel : Nat) (st : ParserState) (r0 : Token) (rest : List Token) (Lend : Lexer),
      Streams st.lexer (innerTokens 1 1 e ++ r0 :: rest) Lend →
      (getPrecedence r0.kind).inPow = some 0 → exprFuel e ≤ fuel + 2 →
      ∃ L', parseExpression fuel 1 st =
          (.ok (setPos ⟨1, 1⟩ e), { st with lexer := L' }) ∧
        Streams L' (r0 :: rest) Lend)
    (fuel : Nat) (st : ParserState) (rest : List Token) (Lend : Lexer)
    (hs : Streams st.lexer (treeTokens 1 1 e ++ rest) Lend)
    (hf : exprFuel e ≤ fuel + 1) :
    ∃ L', parseGrouping fuel st =
        (.ok (setPos ⟨1, 1⟩ e), { st with lexer := L' }) ∧
      Streams L' rest Lend := by
  have hF4 := exprFuel_ge_four e
  rw [hsplit] at hs
  rw [show (mkToken .OPEN_PAREN ⟨1, 1⟩ none ::
      (innerTokens 1 1 e ++ [mkToken .CLOSE_PAREN ⟨1, 1⟩ none])) ++ rest =
    mkToken .OPEN_PAREN ⟨1, 1⟩ none ::
      (innerTokens 1 1 e ++ (mkToken .CLOSE_PAREN ⟨1, 1⟩ none :: rest)) from by simp] at hs
  obtain ⟨L1, hadv1, hs1⟩ := Streams.consume hs
  cases fuel with
  | zero => omega
  | succ f =>
      rw [parseGrouping]
      rw [pAdvance_of hadv1]
      dsimp only
      obtain ⟨L2, hinner, hs2⟩ := hI f { st with lexer := L1 }
        (mkToken .CLOSE_PAREN ⟨1, 1⟩ none) rest Lend (by exact hs1) (by decide) (by omega)
      rw [hinner]
      dsimp only
      obtain ⟨L3, hadv3, hs3⟩ := Streams.consume hs2
      rw [@pConsume_ok { st with lexer := L2 } _ _ _
        (@pPeek_of { st with lexer := L2 } _ _ _ hs2)
        (show (mkToken .CLOSE_PAREN ⟨1, 1⟩ none).kind = .CLOSE_PAREN from rfl) hadv3]
      dsimp only
      exact ⟨L3, rfl, hs3⟩

/-- `parse_expression` at any minimum precedence on a full rendered operand
followed by a zero-power token: the prefix phase consumes the operand and the
loop exits immediately. -/
theorem parseExpr_operand {e : Expr} (h : ArithTree e)
    (hP : ∀ (fuel : Nat) (st : ParserState) (rest : List Token) (Lend : Lexer),
      Streams st.lexer (treeTokens 1 1 e ++ rest) Lend → exprFuel e ≤ fuel + 1 →
      ∃ L', prefixStep fuel e st =
          (.ok (setPos ⟨1, 1⟩ e), { st with lexer := L' }) ∧
        Streams L' rest Lend)
    (p fuel : Nat) (st : ParserState) (r0 : Token) (rest : List Token) (Lend : Lexer)
    (hs : Streams st.lexer (treeTokens 1 1 e ++ r0 :: rest) Lend)
    (hpow : (getPrecedence r0.kind).inPow = some 0) (hf : exprFuel e ≤ fuel) :
    ∃ L', parseExpression fuel p st =
        (.ok (setPos ⟨1, 1⟩ e), { st with lexer := L' }) ∧
      Streams L' (r0 :: rest) Lend := by
  have hF4 := exprFuel_ge_four e
  cases fuel with
  | zero => omega
  | succ f =>
      obtain ⟨L', hpre, hs'⟩ := hP f st (r0 :: rest) Lend hs (by omega)
      rw [parseExpression_start h hs f p]
      rw [hpre]
      dsimp only
      cases f with
      | zero => omega
      | succ g =>
          rw [@parseLoop_exit { st with lexer := L' } _ _ _ hs' hpow g p _]
          exact ⟨L', rfl, hs'⟩

end Bauble

namespace Bauble

theorem parseExpression_start_inner {e : Expr} (h : ArithTree e) {st : ParserState}
    {rest : List Token} {Lend : Lexer}
    (hs : Streams st.lexer (innerTokens 1 1 e ++ rest) Lend) (fuel p : Nat) :
    parseExpression (fuel + 1) p st =
      match innerPrefixStep fuel e st with
      | (.error err, st2) => (.error err, st2)
      | (.ok lhs, st2) => parseLoop fuel p lhs st2 := by
  cases h with
  | lit n pos =>
      have hpeek : pPeek st = mkToken .INTEGER ⟨1, 1⟩ (some (natToDec n)) := pPeek_of hs
      rw [parseExpression, hpeek]
      rfl
  | un op r pos hop hr =>
      rcases hop with rfl | rfl
      · have hpeek : pPeek st = mkToken .MINUS ⟨1, 1⟩ none := pPeek_of hs
        rw [parseExpression, hpeek]
        rfl
      · have hpeek : pPeek st = mkToken .BANG ⟨1, 1⟩ none := pPeek_of hs
        rw [parseExpression, hpeek]
        rfl
  | bin op l r pos hop hl hr =>
      cases hl with
      | lit n2 p2 =>
          have hpeek : pPeek st = mkToken .INTEGER ⟨1, 1⟩ (some (natToDec n2)) :=
            pPeek_of hs
          rw [parseExpression, hpeek]
          rfl
      | un op2 r2 p2 hop2 hr2 =>
          have hpeek : pPeek st = mkToken .OPEN_PAREN ⟨1, 1⟩ none := pPeek_of hs
          rw [parseExpression, hpeek]
          rfl
      | bin op2 l2 r2 p2 hop2 hl2 hr2 =>
          have hpeek : pPeek st = mkToken .OPEN_PAREN ⟨1, 1⟩ none := pPeek_of hs
          rw [parseExpression, hpeek]
          rfl

end Bauble

namespace Bauble

/-- Joint correctness of the prefix phase and of `parse_expression` at
minimum precedence 1 over the rendered token sequences of an
arithmetic/unary tree. -/
theorem parser_tree {e : Expr} (h : ArithTree e) :
    (∀ (fuel : Nat) (st : ParserState) (rest : List Token) (Lend : Lexer),
        Streams st.lexer (treeTokens 1 1 e ++ rest) Lend →
        exprFuel e ≤ fuel + 1 →
        ∃ L', prefixStep fuel e st =
            (.ok (setPos ⟨1, 1⟩ e), { st with lexer := L' }) ∧
          Streams L' rest Lend) ∧
    (∀ (fuel : Nat) (st : ParserState) (r0 : Token) (rest : List Token) (Lend : Lexer),
        Streams st.lexer (innerTokens 1 1 e ++ r0 :: rest) Lend →
        (getPrecedence r0.kind).inPow = some 0 →
        exprFuel e ≤ fuel + 2 →
        ∃ L', parseExpression fuel 1 st =
            (.ok (setPos ⟨1, 1⟩ e), { st with lexer := L' }) ∧
          Streams L' (r0 :: rest) Lend) := by
  induction h with
  | lit n pos =>
      constructor
      · intro fuel st rest Lend hs _
        exact prefix_of_lit n pos fuel st rest Lend hs
      · intro fuel st r0 rest Lend hs hpow hf
        have hfe : exprFuel (.literal (.intV (Int.ofNat n)) pos) = 4 := rfl
        cases fuel with
        | zero => omega
        | succ f =>
            obtain ⟨L', hpre, hs'⟩ := prefix_of_lit n pos f st (r0 :: rest) Lend hs
            rw [parseExpression_start (ArithTree.lit n pos) hs f 1]
            rw [hpre]
            dsimp only
            cases f with
            | zero => omega
            | succ g =>
                rw [@parseLoop_exit { st with lexer := L' } _ _ _ hs' hpow g 1 _]
                exact ⟨L', rfl, hs'⟩
  | un op r pos hop hr ih =>
      have hFr := exprFuel_ge_four r
      have hI : ∀ (fuel : Nat) (st : ParserState) (r0 : Token) (rest : List Token)
          (Lend : Lexer),
          Streams st.lexer (innerTokens 1 1 (.unaryOp op r pos) ++ r0 :: rest) Lend →
          (getPrecedence r0.kind).inPow = some 0 →
          exprFuel (.unaryOp op r pos) ≤ fuel + 2 →
          ∃ L', parseExpression fuel 1 st =
              (.ok (setPos ⟨1, 1⟩ (.unaryOp op r pos)), { st with lexer := L' }) ∧
            Streams L' (r0 :: rest) Lend := by
        intro fuel st r0 rest Lend hs hpow hf
        have hfe : exprFuel (.unaryOp op r pos) = exprFuel r + 4 := rfl
        cases fuel with
        | zero => omega
        | succ f =>
            rw [parseExpression_start_inner (ArithTree.un op r pos hop hr) hs f 1]
            have hop' := hop
            have hun : ∃ L2, parseUnary f st =
                (.ok (setPos ⟨1, 1⟩ (.unaryOp op r pos)), { st with lexer := L2 }) ∧
                Streams L2 (r0 :: rest) Lend := by
              cases f with
              | zero => omega
              | succ g =>
                  rcases hop' with rfl | rfl
                  · obtain ⟨L1, hadv, hs1⟩ :=
                      Streams.consume (t := mkToken .MINUS ⟨1, 1⟩ none) hs
                    obtain ⟨L2, hrec, hs2⟩ := parseExpr_operand hr ih.1 8 g
                      { st with lexer := L1 } r0 rest Lend hs1 hpow (by omega)
                    refine ⟨L2, ?_, hs2⟩
                    rw [parseUnary]
                    rw [pAdvance_of hadv]
                    dsimp only
                    rw [show (getPrecedence (mkToken .MINUS ⟨1, 1⟩ none).kind).prePow =
                      some 8 from rfl]
                    dsimp only
                    rw [hrec]
                    rfl
                  · obtain ⟨L1, hadv, hs1⟩ :=
                      Streams.consume (t := mkToken .BANG ⟨1, 1⟩ none) hs
                    obtain ⟨L2, hrec, hs2⟩ := parseExpr_operand hr ih.1 8 g
                      { st with lexer := L1 } r0 rest Lend hs1 hpow (by omega)
                    refine ⟨L2, ?_, hs2⟩
                    rw [parseUnary]
                    rw [pAdvance_of hadv]
                    dsimp only
                    rw [show (getPrecedence (mkToken .BANG ⟨1, 1⟩ none).kind).prePow =
                      some 8 from rfl]
                    dsimp only
                    rw [hrec]
                    rfl
            obtain ⟨L2, hun2, hs2⟩ := hun
            rw [show innerPrefixStep f (.unaryOp op r pos) st = parseUnary f st from rfl]
            rw [hun2]
            dsimp only
            cases f with
            | zero => omega
            | succ g =>
                rw [@parseLoop_exit { st with lexer := L2 } _ _ _ hs2 hpow g 1 _]
                exact ⟨L2, rfl, hs2⟩
      refine ⟨?_, hI⟩
      intro fuel st rest Lend hs hf
      exact @grouping_step (.unaryOp op r pos) rfl hI fuel st rest Lend hs hf
  | bin op l r pos hop hl hr ihl ihr =>
      have hFl := exprFuel_ge_four l
      have hFr := exprFuel_ge_four r
      have hI : ∀ (fuel : Nat) (st : ParserState) (r0 : Token) (rest : List Token)
          (Lend : Lexer),
          Streams st.lexer (innerTokens 1 1 (.binOp op l r pos) ++ r0 :: rest) Lend →
          (getPrecedence r0.kind).inPow = some 0 →
          exprFuel (.binOp op l r pos) ≤ fuel + 2 →
          ∃ L', parseExpression fuel 1 st =
              (.ok (setPos ⟨1, 1⟩ (.binOp op l r pos)), { st with lexer := L' }) ∧
            Streams L' (r0 :: rest) Lend := by
        intro fuel st r0 rest Lend hs hpow hf
        have hfe : exprFuel (.binOp op l r pos) = exprFuel l + exprFuel r + 4 := rfl
        have hshape : innerTokens 1 1 (.binOp op l r pos) ++ r0 :: rest =
            treeTokens 1 1 l ++
              (mkToken (opTokenKind op) ⟨1, 1⟩ none ::
                (treeTokens 1 1 r ++ r0 :: rest)) := by
          show (treeTokens 1 1 l ++ [mkToken (opTokenKind op) ⟨1, 1⟩ none] ++
            treeTokens 1 1 r) ++ r0 :: rest = _
          simp
        rw [hshape] at hs
        cases fuel with
        | zero => omega
        | succ f =>
            rw [parseExpression_start_inner (ArithTree.bin op l r pos hop hl hr)
              (by rw [hshape]; exact hs) f 1]
            obtain ⟨L1, hpre, hs1⟩ := ihl.1 f st _ Lend hs (by omega)
            rw [show innerPrefixStep f (.binOp op l r pos) st = prefixStep f l st from rfl]
            rw [hpre]
            dsimp only
            cases f with
            | zero => omega
            | succ g =>
                have hloop : ∀ (opk : TokenKind) (po : Nat) (rule : Rule),
                    mkToken (opTokenKind op) ⟨1, 1⟩ none = mkToken opk ⟨1, 1⟩ none →
                    (getPrecedence opk).inPow = some po → 1 < po →
                    rulesMap opk = some rule → rule.inRule = some .binaryH →
                    (mkToken opk ⟨1, 1⟩ none).value = op →
                    ∃ L', parseLoop (g + 1) 1 (setPos ⟨1, 1⟩ l)
                        { st with lexer := L1 } =
                        (.ok (setPos ⟨1, 1⟩ (.binOp op l r pos)), { st with lexer := L' }) ∧
                      Streams L' (r0 :: rest) Lend := by
                  intro opk po rule hmk hipow hlt hrule hinr hval
                  rw [hmk] at hs1
                  have hpk : pPeek { st with lexer := L1 } = mkToken opk ⟨1, 1⟩ none :=
                    pPeek_of hs1
                  rw [parseLoop]
                  rw [hpk]
                  rw [show (mkToken opk ⟨1, 1⟩ none).kind = opk from rfl]
                  rw [hipow]
                  dsimp only
                  rw [if_pos hlt]
                  rw [hrule]
                  dsimp only
                  rw [hinr]
                  cases g with
                  | zero => omega
                  | succ g2 =>
                      obtain ⟨L2, hadv, hs2⟩ := Streams.consume hs1
                      obtain ⟨L3, hrec, hs3⟩ := parseExpr_operand hr ihr.1 po g2
                        { st with lexer := L2 } r0 rest Lend hs2 hpow (by omega)
                      rw [parseBinary]
                      rw [@pAdvance_of { st with lexer := L1 } _ _ hadv]
                      dsimp only
                      rw [show (mkToken opk ⟨1, 1⟩ none).kind = opk from rfl]
                      rw [hipow]
                      dsimp only
                      rw [hrec]
                      dsimp only
                      rw [hval]
                      rw [setPos_position]
                      rw [@parseLoop_exit { st with lexer := L3 } _ _ _ hs3 hpow g2 1 _]
                      exact ⟨L3, rfl, hs3⟩
                rcases hop with rfl | rfl | rfl | rfl
                · exact hloop .PLUS 6 ⟨none, some .binaryH⟩ rfl rfl (by omega) rfl rfl rfl
                · exact hloop .MINUS 6 ⟨some .unaryH, some .binaryH⟩ rfl rfl (by omega)
                    rfl rfl rfl
                · exact hloop .STAR 7 ⟨none, some .binaryH⟩ rfl rfl (by omega) rfl rfl rfl
                · exact hloop .SLASH 7 ⟨none, some .binaryH⟩ rfl rfl (by omega) rfl rfl rfl
      refine ⟨?_, hI⟩
      intro fuel st rest Lend hs hf
      exact @grouping_step (.binOp op l r pos) rfl hI fuel st rest Lend hs hf

end Bauble

namespace Bauble

theorem shape_setPos {e : Expr} (h : ArithTree e) (p : Position) :
    (setPos p e).shape = e.shape := by
  induction h with
  | lit n q => rfl
  | un op r q hop hr ih => simp only [setPos, Expr.shape, ih]
  | bin op l r q hop hl hr ihl ihr => simp only [setPos, Expr.shape, ihl, ihr]

/-- C7: for every expression tree of the arithmetic/unary fragment (BinOp
nodes over `+`, `-`, `*`, `/`, UnaryOp nodes over `-` and `!`, and integer
Literal nodes) — in particular for every such tree the parser itself built —
rendering it with `__str__` and parsing that rendering again succeeds and
yields a structurally equivalent tree (equal up to position annotations). -/
theorem c7_roundtrip {e : Expr} (h : ArithTree e) :
    ∃ e', parsedExpr (renderExpr e) (exprFuel e) = some e' ∧ e'.shape = e.shape := by
  have hlex0 := lexes_tree h [] 1 1 True.intro
  rw [List.append_nil] at hlex0
  have heof2 : LexesTo ⟨[], 1, 1⟩
      [mkToken .EOF ⟨1, 1⟩ none, mkToken .EOF ⟨1, 1⟩ none] ⟨[], 1, 1⟩ :=
    LexesTo.cons (lexToken_nil 1 1) (LexesTo.cons (lexToken_nil 1 1) (LexesTo.nil _))
  have hall := hlex0.append heof2
  cases htk : treeTokens 1 1 e with
  | nil => exact absurd htk (treeTokens_ne_nil h 1 1)
  | cons t0 ts0 =>
      rw [htk, List.cons_append] at hall
      cases hall with
      | cons hstep htail =>
          rename_i s1
          have htail' : LexesTo s1 ((ts0 ++ [mkToken .EOF ⟨1, 1⟩ none]) ++
              [mkToken .EOF ⟨1, 1⟩ none]) ⟨[], 1, 1⟩ := by
            rw [List.append_assoc]; exact htail
          have hstr := lexesTo_streams t0 htail'
          have hstr' : Streams (⟨t0, s1⟩ : Lexer)
              (treeTokens 1 1 e ++ [mkToken .EOF ⟨1, 1⟩ none])
              ⟨mkToken .EOF ⟨1, 1⟩ none, ⟨[], 1, 1⟩⟩ := by
            rw [htk, List.cons_append]
            exact hstr
          have hinit : Lexer.init (renderExpr e) = some ⟨t0, s1⟩ := by
            unfold Lexer.init
            rw [show (renderExpr e).toList = (renderExpr e).data from rfl, hstep]
            rfl
          have hrp : runParse (renderExpr e) (exprFuel e) =
              some (parseExpression (exprFuel e) 0 ⟨⟨t0, s1⟩, "main.bl", []⟩) := by
            unfold runParse Parser.init
            rw [hinit]
            rfl
          obtain ⟨L', hrun, hs'⟩ := parseExpr_operand h (parser_tree h).1 0 (exprFuel e)
            ⟨⟨t0, s1⟩, "main.bl", []⟩ (mkToken .EOF ⟨1, 1⟩ none) []
            ⟨mkToken .EOF ⟨1, 1⟩ none, ⟨[], 1, 1⟩⟩ hstr' rfl (le_refl _)
          refine ⟨setPos ⟨1, 1⟩ e, ?_, shape_setPos h ⟨1, 1⟩⟩
          unfold parsedExpr
          rw [hrp, hrun]

theorem c7_roundtrip_witness :
    ∃ e', parsedExpr (renderExpr (.binOp "+" (.literal (.intV (Int.ofNat 1)) ⟨1, 1⟩)
          (.literal (.intV (Int.ofNat 2)) ⟨1, 1⟩) ⟨1, 1⟩))
        (exprFuel (.binOp "+" (.literal (.intV (Int.ofNat 1)) ⟨1, 1⟩)
          (.literal (.intV (Int.ofNat 2)) ⟨1, 1⟩) ⟨1, 1⟩)) = some e' ∧
      e'.shape = (Expr.binOp "+" (.literal (.intV (Int.ofNat 1)) ⟨1, 1⟩)
          (.literal (.intV (Int.ofNat 2)) ⟨1, 1⟩) ⟨1, 1⟩).shape :=
  c7_roundtrip (ArithTree.bin "+" _ _ ⟨1, 1⟩ (Or.inl rfl)
    (ArithTree.lit 1 ⟨1, 1⟩) (ArithTree.lit 2 ⟨1, 1⟩))

end Bauble

namespace Bauble

/-! ## Stepping the parser over a concrete token stream -/

theorem parseExpr_lit_start (n fuel p : Nat) (st : ParserState)
    (rest : List Token) (Lend : Lexer)
    (hs : Streams st.lexer (mkToken .INTEGER ⟨1, 1⟩ (some (natToDec n)) :: rest) Lend) :
    ∃ L1, parseExpression (fuel + 1) p st =
        parseLoop fuel p (.literal (.intV (Int.ofNat n)) ⟨1, 1⟩)
          { st with lexer := L1 } ∧
      Streams L1 rest Lend := by
  have hs' : Streams st.lexer
      (treeTokens 1 1 (.literal (.intV (Int.ofNat n)) ⟨1, 1⟩) ++ rest) Lend := hs
  obtain ⟨L', hpre, hs2⟩ := prefix_of_lit n ⟨1, 1⟩ fuel st rest Lend hs'
  refine ⟨L', ?_, hs2⟩
  rw [parseExpression_start (ArithTree.lit n ⟨1, 1⟩) hs' fuel p, hpre]
  rfl

theorem parseLoop_step {opk : TokenKind} {ip : Nat} {r : Rule}
    (hr : rulesMap opk = some r) (hri : r.inRule = some .binaryH)
    (hip : (getPrecedence opk).inPow = some ip)
    {st : ParserState} {L1 : Lexer} {ts : List Token} {Lend : Lexer}
    (hs : Streams st.lexer (mkToken opk ⟨1, 1⟩ none :: ts) Lend)
    (hadv : st.lexer.nextToken = some (mkToken opk ⟨1, 1⟩ none, L1))
    {fuel p : Nat} (hlt : p < ip) (lhs : Expr) {rhs : Expr} {st2 : ParserState}
    (hrec : parseExpression fuel ip { st with lexer := L1 } = (.ok rhs, st2)) :
    parseLoop (fuel + 1 + 1) p lhs st =
      parseLoop (fuel + 1) p
        (.binOp (mkToken opk ⟨1, 1⟩ none).value lhs rhs lhs.position) st2 := by
  rw [parseLoop]
  rw [pPeek_of hs]
  rw [mkToken_kind]
  rw [hip]
  dsimp only
  rw [if_pos hlt]
  rw [hr]
  dsimp only
  rw [hri]
  dsimp only
  rw [parseBinary]
  rw [pAdvance_of hadv]
  dsimp only
  rw [mkToken_kind, hip]
  dsimp only
  rw [hrec]

theorem parseLoop_exit_le {st : ParserState} {r0 : Token} {ts : List Token} {Lend : Lexer}
    {ip : Nat} (hs : Streams st.lexer (r0 :: ts) Lend)
    (hpow : (getPrecedence r0.kind).inPow = some ip)
    (fuel p : Nat) (hnlt : ¬ p < ip) (lhs : Expr) :
    parseLoop (fuel + 1) p lhs st = (.ok lhs, st) := by
  rw [parseLoop]
  rw [pPeek_of hs]
  rw [hpow]
  dsimp only
  rw [if_neg hnlt]

end Bauble

namespace Bauble

/-- C1: on the source "1 + 2 * 3 * 4 + 5", `parse_expression` at the default
minimum precedence returns the BinOp tree whose `str` rendering is exactly
"((1 + ((2 * 3) * 4)) + 5)": `*`/`/` (infix power 7) bind more tightly than
`+`/`-` (infix power 6), and operators of equal power group to the left. -/
theorem c1_precedence_grouping :
    parsedExpr "1 + 2 * 3 * 4 + 5" 9 =
      some (.binOp "+"
        (.binOp "+" (.literal (.intV (Int.ofNat 1)) ⟨1, 1⟩)
          (.binOp "*"
            (.binOp "*" (.literal (.intV (Int.ofNat 2)) ⟨1, 1⟩)
              (.literal (.intV (Int.ofNat 3)) ⟨1, 1⟩) ⟨1, 1⟩)
            (.literal (.intV (Int.ofNat 4)) ⟨1, 1⟩) ⟨1, 1⟩) ⟨1, 1⟩)
        (.literal (.intV (Int.ofNat 5)) ⟨1, 1⟩) ⟨1, 1⟩) ∧
    renderExpr (.binOp "+"
        (.binOp "+" (.literal (.intV (Int.ofNat 1)) ⟨1, 1⟩)
          (.binOp "*"
            (.binOp "*" (.literal (.intV (Int.ofNat 2)) ⟨1, 1⟩)
              (.literal (.intV (Int.ofNat 3)) ⟨1, 1⟩) ⟨1, 1⟩)
            (.literal (.intV (Int.ofNat 4)) ⟨1, 1⟩) ⟨1, 1⟩) ⟨1, 1⟩)
        (.literal (.intV (Int.ofNat 5)) ⟨1, 1⟩) ⟨1, 1⟩) =
      "((1 + ((2 * 3) * 4)) + 5)" := by
  refine ⟨?_, rfl⟩
  have hlex : LexesTo ⟨"1 + 2 * 3 * 4 + 5".data, 1, 1⟩
      [mkToken .INTEGER ⟨1, 1⟩ (some (natToDec 1)), mkToken .PLUS ⟨1, 1⟩ none,
       mkToken .INTEGER ⟨1, 1⟩ (some (natToDec 2)), mkToken .STAR ⟨1, 1⟩ none,
       mkToken .INTEGER ⟨1, 1⟩ (some (natToDec 3)), mkToken .STAR ⟨1, 1⟩ none,
       mkToken .INTEGER ⟨1, 1⟩ (some (natToDec 4)), mkToken .PLUS ⟨1, 1⟩ none,
       mkToken .INTEGER ⟨1, 1⟩ (some (natToDec 5))] ⟨[], 1, 1⟩ := by
    refine LexesTo.cons (lexToken_int 1 " + 2 * 3 * 4 + 5".data 1 1 (Or.inl rfl)) ?_
    refine LexesTo.cons ((@lexToken_space_peel '+' (by decide) (by decide)
      " 2 * 3 * 4 + 5".data 1 1).trans (lexToken_plus " 2 * 3 * 4 + 5".data 1 1)) ?_
    refine LexesTo.cons ((@lexToken_space_peel '2' (by decide) (by decide)
      " * 3 * 4 + 5".data 1 1).trans
      (lexToken_int 2 " * 3 * 4 + 5".data 1 1 (Or.inl rfl))) ?_
    refine LexesTo.cons ((@lexToken_space_peel '*' (by decide) (by decide)
      " 3 * 4 + 5".data 1 1).trans (lexToken_star " 3 * 4 + 5".data 1 1)) ?_
    refine LexesTo.cons ((@lexToken_space_peel '3' (by decide) (by decide)
      " * 4 + 5".data 1 1).trans
      (lexToken_int 3 " * 4 + 5".data 1 1 (Or.inl rfl))) ?_
    refine LexesTo.cons ((@lexToken_space_peel '*' (by decide) (by decide)
      " 4 + 5".data 1 1).trans (lexToken_star " 4 + 5".data 1 1)) ?_
    refine LexesTo.cons ((@lexToken_space_peel '4' (by decide) (by decide)
      " + 5".data 1 1).trans
      (lexToken_int 4 " + 5".data 1 1 (Or.inl rfl))) ?_
    refine LexesTo.cons ((@lexToken_space_peel '+' (by decide) (by decide)
      " 5".data 1 1).trans (lexToken_plus " 5".data 1 1)) ?_
    refine LexesTo.cons ((@lexToken_space_peel '5' (by decide) (by decide)
      ([] : List Char) 1 1).trans (lexToken_int 5 [] 1 1 True.intro)) ?_
    exact LexesTo.nil _
  have hall := hlex.append (LexesTo.cons (lexToken_nil 1 1)
    (LexesTo.cons (lexToken_nil 1 1) (LexesTo.nil ⟨[], 1, 1⟩)))
  have hall' : LexesTo ⟨"1 + 2 * 3 * 4 + 5".data, 1, 1⟩
      (mkToken .INTEGER ⟨1, 1⟩ (some (natToDec 1)) ::
        ([mkToken .PLUS ⟨1, 1⟩ none,
          mkToken .INTEGER ⟨1, 1⟩ (some (natToDec 2)), mkToken .STAR ⟨1, 1⟩ none,
          mkToken .INTEGER ⟨1, 1⟩ (some (natToDec 3)), mkToken .STAR ⟨1, 1⟩ none,
          mkToken .INTEGER ⟨1, 1⟩ (some (natToDec 4)), mkToken .PLUS ⟨1, 1⟩ none,
          mkToken .INTEGER ⟨1, 1⟩ (some (natToDec 5)), mkToken .EOF ⟨1, 1⟩ none] ++
         [mkToken .EOF ⟨1, 1⟩ none])) ⟨[], 1, 1⟩ := hall
  cases hall' with
  | cons hstep htail =>
      rename_i s1
      have hstr := lexesTo_streams (mkToken .INTEGER ⟨1, 1⟩ (some (natToDec 1))) htail
      have hinit : Lexer.init "1 + 2 * 3 * 4 + 5" =
          some ⟨mkToken .INTEGER ⟨1, 1⟩ (some (natToDec 1)), s1⟩ := by
        unfold Lexer.init
        rw [show "1 + 2 * 3 * 4 + 5".toList = "1 + 2 * 3 * 4 + 5".data from rfl, hstep]
        rfl
      have hrp : runParse "1 + 2 * 3 * 4 + 5" 9 =
          some (parseExpression 9 0
            ⟨⟨mkToken .INTEGER ⟨1, 1⟩ (some (natToDec 1)), s1⟩, "main.bl", []⟩) := by
        unfold runParse Parser.init
        rw [hinit]
        rfl
      obtain ⟨L1, hE1, hs1⟩ := parseExpr_lit_start 1 8 0
        ⟨⟨mkToken .INTEGER ⟨1, 1⟩ (some (natToDec 1)), s1⟩, "main.bl", []⟩
        [mkToken .PLUS ⟨1, 1⟩ none,
         mkToken .INTEGER ⟨1, 1⟩ (some (natToDec 2)), mkToken .STAR ⟨1, 1⟩ none,
         mkToken .INTEGER ⟨1, 1⟩ (some (natToDec 3)), mkToken .STAR ⟨1, 1⟩ none,
         mkToken .INTEGER ⟨1, 1⟩ (some (natToDec 4)), mkToken .PLUS ⟨1, 1⟩ none,
         mkToken .INTEGER ⟨1, 1⟩ (some (natToDec 5)), mkToken .EOF ⟨1, 1⟩ none]
        ⟨mkToken .EOF ⟨1, 1⟩ none, ⟨[], 1, 1⟩⟩ hstr
      obtain ⟨L2, hadv2, hs2⟩ := Streams.consume hs1
      obtain ⟨L3, hE3, hs3⟩ := parseExpr_lit_start 2 5 6 ⟨L2, "main.bl", []⟩
        [mkToken .STAR ⟨1, 1⟩ none, mkToken .INTEGER ⟨1, 1⟩ (some (natToDec 3)),
         mkToken .STAR ⟨1, 1⟩ none, mkToken .INTEGER ⟨1, 1⟩ (some (natToDec 4)),
         mkToken .PLUS ⟨1, 1⟩ none, mkToken .INTEGER ⟨1, 1⟩ (some (natToDec 5)),
         mkToken .EOF ⟨1, 1⟩ none] ⟨mkToken .EOF ⟨1, 1⟩ none, ⟨[], 1, 1⟩⟩ hs2
      obtain ⟨L4, hadv4, hs4⟩ := Streams.consume hs3
      obtain ⟨L5, hE5, hs5⟩ := parseExpr_lit_start 3 2 7 ⟨L4, "main.bl", []⟩
        [mkToken .STAR ⟨1, 1⟩ none, mkToken .INTEGER ⟨1, 1⟩ (some (natToDec 4)),
         mkToken .PLUS ⟨1, 1⟩ none, mkToken .INTEGER ⟨1, 1⟩ (some (natToDec 5)),
         mkToken .EOF ⟨1, 1⟩ none] ⟨mkToken .EOF ⟨1, 1⟩ none, ⟨[], 1, 1⟩⟩ hs4
      have hEi5 : parseExpression 3 7 ⟨L4, "main.bl", []⟩ =
          (.ok (.literal (.intV (Int.ofNat 3)) ⟨1, 1⟩), ⟨L5, "main.bl", []⟩) :=
        hE5.trans (@parseLoop_exit_le ⟨L5, "main.bl", []⟩ _ _ _ _ hs5 rfl 1 7
          (by decide) _)
      have hE4 : parseLoop 5 6 (.literal (.intV (Int.ofNat 2)) ⟨1, 1⟩)
          ⟨L3, "main.bl", []⟩ =
          parseLoop 4 6 (.binOp "*" (.literal (.intV (Int.ofNat 2)) ⟨1, 1⟩)
            (.literal (.intV (Int.ofNat 3)) ⟨1, 1⟩) ⟨1, 1⟩) ⟨L5, "main.bl", []⟩ :=
        @parseLoop_step .STAR 7 ⟨none, some .binaryH⟩ rfl rfl rfl
          ⟨L3, "main.bl", []⟩ L4 _ _ hs3 hadv4 3 6 (by decide)
          (.literal (.intV (Int.ofNat 2)) ⟨1, 1⟩) _ _ hEi5
      obtain ⟨L6, hadv6, hs6⟩ := Streams.consume hs5
      obtain ⟨L7, hE7, hs7⟩ := parseExpr_lit_start 4 1 7 ⟨L6, "main.bl", []⟩
        [mkToken .PLUS ⟨1, 1⟩ none, mkToken .INTEGER ⟨1, 1⟩ (some (natToDec 5)),
         mkToken .EOF ⟨1, 1⟩ none] ⟨mkToken .EOF ⟨1, 1⟩ none, ⟨[], 1, 1⟩⟩ hs6
      have hEi7 : parseExpression 2 7 ⟨L6, "main.bl", []⟩ =
          (.ok (.literal (.intV (Int.ofNat 4)) ⟨1, 1⟩), ⟨L7, "main.bl", []⟩) :=
        hE7.trans (@parseLoop_exit_le ⟨L7, "main.bl", []⟩ _ _ _ _ hs7 rfl 0 7
          (by decide) _)
      have hE6 : parseLoop 4 6 (.binOp "*" (.literal (.intV (Int.ofNat 2)) ⟨1, 1⟩)
            (.literal (.intV (Int.ofNat 3)) ⟨1, 1⟩) ⟨1, 1⟩) ⟨L5, "main.bl", []⟩ =
          parseLoop 3 6 (.binOp "*"
            (.binOp "*" (.literal (.intV (Int.ofNat 2)) ⟨1, 1⟩)
              (.literal (.intV (Int.ofNat 3)) ⟨1, 1⟩) ⟨1, 1⟩)
            (.literal (.intV (Int.ofNat 4)) ⟨1, 1⟩) ⟨1, 1⟩) ⟨L7, "main.bl", []⟩ :=
        @parseLoop_step .STAR 7 ⟨none, some .binaryH⟩ rfl rfl rfl
          ⟨L5, "main.bl", []⟩ L6 _ _ hs5 hadv6 2 6 (by decide)
          (.binOp "*" (.literal (.intV (Int.ofNat 2)) ⟨1, 1⟩)
            (.literal (.intV (Int.ofNat 3)) ⟨1, 1⟩) ⟨1, 1⟩) _ _ hEi7
      have hEi3 : parseExpression 6 6 ⟨L2, "main.bl", []⟩ =
          (.ok (.binOp "*"
            (.binOp "*" (.literal (.intV (Int.ofNat 2)) ⟨1, 1⟩)
              (.literal (.intV (Int.ofNat 3)) ⟨1, 1⟩) ⟨1, 1⟩)
            (.literal (.intV (Int.ofNat 4)) ⟨1, 1⟩) ⟨1, 1⟩), ⟨L7, "main.bl", []⟩) :=
        hE3.trans (hE4.trans (hE6.trans
          (@parseLoop_exit_le ⟨L7, "main.bl", []⟩ _ _ _ _ hs7 rfl 2 6 (by decide) _)))
      have hE2 : parseLoop 8 0 (.literal (.intV (Int.ofNat 1)) ⟨1, 1⟩)
          ⟨L1, "main.bl", []⟩ =
          parseLoop 7 0 (.binOp "+" (.literal (.intV (Int.ofNat 1)) ⟨1, 1⟩)
            (.binOp "*"
              (.binOp "*" (.literal (.intV (Int.ofNat 2)) ⟨1, 1⟩)
                (.literal (.intV (Int.ofNat 3)) ⟨1, 1⟩) ⟨1, 1⟩)
              (.literal (.intV (Int.ofNat 4)) ⟨1, 1⟩) ⟨1, 1⟩) ⟨1, 1⟩)
            ⟨L7, "main.bl", []⟩ :=
        @parseLoop_step .PLUS 6 ⟨none, some .binaryH⟩ rfl rfl rfl
          ⟨L1, "main.bl", []⟩ L2 _ _ hs1 hadv2 6 0 (by decide)
          (.literal (.intV (Int.ofNat 1)) ⟨1, 1⟩) _ _ hEi3
      obtain ⟨L8, hadv8, hs8⟩ := Streams.consume hs7
      obtain ⟨L9, hE9, hs9⟩ := parseExpr_lit_start 5 4 6 ⟨L8, "main.bl", []⟩
        [mkToken .EOF ⟨1, 1⟩ none] ⟨mkToken .EOF ⟨1, 1⟩ none, ⟨[], 1, 1⟩⟩ hs8
      have hEi10 : parseExpression 5 6 ⟨L8, "main.bl", []⟩ =
          (.ok (.literal (.intV (Int.ofNat 5)) ⟨1, 1⟩), ⟨L9, "main.bl", []⟩) :=
        hE9.trans (@parseLoop_exit_le ⟨L9, "main.bl", []⟩ _ _ _ _ hs9 rfl 3 6
          (by decide) _)
      have hE10 : parseLoop 7 0 (.binOp "+" (.literal (.intV (Int.ofNat 1)) ⟨1, 1⟩)
            (.binOp "*"
              (.binOp "*" (.literal (.intV (Int.ofNat 2)) ⟨1, 1⟩)
                (.literal (.intV (Int.ofNat 3)) ⟨1, 1⟩) ⟨1, 1⟩)
              (.literal (.intV (Int.ofNat 4)) ⟨1, 1⟩) ⟨1, 1⟩) ⟨1, 1⟩)
            ⟨L7, "main.bl", []⟩ =
          parseLoop 6 0 (.binOp "+"
            (.binOp "+" (.literal (.intV (Int.ofNat 1)) ⟨1, 1⟩)
              (.binOp "*"
                (.binOp "*" (.literal (.intV (Int.ofNat 2)) ⟨1, 1⟩)
                  (.literal (.intV (Int.ofNat 3)) ⟨1, 1⟩) ⟨1, 1⟩)
                (.literal (.intV (Int.ofNat 4)) ⟨1, 1⟩) ⟨1, 1⟩) ⟨1, 1⟩)
            (.literal (.intV (Int.ofNat 5)) ⟨1, 1⟩) ⟨1, 1⟩) ⟨L9, "main.bl", []⟩ :=
        @parseLoop_step .PLUS 6 ⟨none, some .binaryH⟩ rfl rfl rfl
          ⟨L7, "main.bl", []⟩ L8 _ _ hs7 hadv8 5 0 (by decide)
          (.binOp "+" (.literal (.intV (Int.ofNat 1)) ⟨1, 1⟩)
            (.binOp "*"
              (.binOp "*" (.literal (.intV (Int.ofNat 2)) ⟨1, 1⟩)
                (.literal (.intV (Int.ofNat 3)) ⟨1, 1⟩) ⟨1, 1⟩)
              (.literal (.intV (Int.ofNat 4)) ⟨1, 1⟩) ⟨1, 1⟩) ⟨1, 1⟩) _ _ hEi10
      have hfull : parseExpression 9 0
          ⟨⟨mkToken .INTEGER ⟨1, 1⟩ (some (natToDec 1)), s1⟩, "main.bl", []⟩ =
          (.ok (.binOp "+"
            (.binOp "+" (.literal (.intV (Int.ofNat 1)) ⟨1, 1⟩)
              (.binOp "*"
                (.binOp "*" (.literal (.intV (Int.ofNat 2)) ⟨1, 1⟩)
                  (.literal (.intV (Int.ofNat 3)) ⟨1, 1⟩) ⟨1, 1⟩)
                (.literal (.intV (Int.ofNat 4)) ⟨1, 1⟩) ⟨1, 1⟩) ⟨1, 1⟩)
            (.literal (.intV (Int.ofNat 5)) ⟨1, 1⟩) ⟨1, 1⟩), ⟨L9, "main.bl", []⟩) :=
        hE1.trans (hE2.trans (hE10.trans
          (@parseLoop_exit_le ⟨L9, "main.bl", []⟩ _ _ _ _ hs9 rfl 5 0 (by decide) _)))
      unfold parsedExpr
      rw [hrp, hfull]

end Bauble
